import Mathlib

/-!
# gobuildweb: task runner, build steps and process supervisor (`app.go`)

A shallow embedding of `app.go`.  The orchestrator state `AppShell` is passed
explicitly.  Everything outside the program (the asset compilers, the `go`
tool, the supervised child process, the clock) is an arbitrary environment
`Env W` over an abstract world `W`: each external call maps the world to an
outcome (`none` for a `nil` error, `some e` for an error) and a new world.
Every call is also appended to a chronological `trace`, together with a few
call/return markers, so that statements about "what was attempted, and in
which order" can be made.

* The channel `taskChan` is a FIFO list: the sequence of values sent through
  it.  `executeTask` appends, `startRunner` consumes from the front.
* `rootConfig` is read-only during a run.
* The recursion of the asset steps through `buildAssetsTraverse` is bounded by
  a fuel argument.
* Of the log output only the two messages of the restart case are kept, as
  events of the trace.
* A function of the program that does not return to its caller yields `none`:
  an asset step whose recursion is deeper than the fuel, and `kill` when it
  calls a method of a nil `Process` (the handle of a command whose `Start()`
  failed), which panics.
-/

namespace GoBuildWeb

/-! ## Data model -/

/-- The `TaskType` constants, in their declared (iota) order.  The program
builds tasks from these constants only. -/
inductive TaskType
  | kTaskBuildImages
  | kTaskBuildStyles
  | kTaskBuildJavaScripts
  | kTaskBinaryTest
  | kTaskBuildBinary
  | kTaskBinaryRestart
  deriving DecidableEq, Repr

/-- The struct `AppShellTask`. -/
structure AppShellTask where
  taskType : TaskType
  module : String
  deriving DecidableEq, Repr

/-- A non-nil Go `error` value; `Option GoError` is a Go `error`. -/
abbrev GoError := String

/-- The `*exec.Cmd` built by `start`: the program path, its arguments, and
whether its field `Process` is set, which it is once `Start()` has
succeeded. -/
structure Cmd where
  path : String
  args : List String
  launched : Bool
  deriving DecidableEq, Repr

/-- The struct `AppShell`, without its channel: `taskChan` is the FIFO list
handed to `executeTask` and `startRunner`. -/
structure AppShell where
  binName : String
  args : List String
  isProduction : Bool
  curError : Option GoError
  command : Option Cmd
  deriving DecidableEq, Repr

/-- The constructor `NewAppShell(args)`: all other fields are zero values. -/
def NewAppShell (args : List String) : AppShell :=
  { binName := "", args := args, isProduction := false, curError := none, command := none }

/-- The fields of `rootConfig` that `app.go` reads. -/
structure ProjectConfig where
  /-- The field `Package.Name`. -/
  name : String
  /-- The field `Package.Version`. -/
  version : String
  /-- The field `Package.BuildOpts`. -/
  packageBuildOpts : List String
  /-- The field `Package.IsGraceful`. -/
  isGraceful : Bool
  /-- The field `Distribution.BuildOpts`. -/
  distBuildOpts : List String
  /-- The field `Distribution.CrossTargets`, a slice of `[2]string`. -/
  crossTargets : List (String × String)
  /-- The names of `Assets.VendorSets`, in declared order. -/
  vendorSets : List String
  /-- The names of `Assets.Entries`, in declared order. -/
  entries : List String
  deriving DecidableEq, Repr

/-- What the program reads from the Go runtime and the process environment. -/
structure Runtime where
  GOOS : String
  GOARCH : String
  getenv : String → String

/-- The three asset kinds built by `buildImages`, `buildStyles`, `buildJavaScripts`. -/
inductive AssetKind
  | images
  | styles
  | javascripts
  deriving DecidableEq, Repr

/-- The output directory that a full rebuild of the kind resets. -/
def AssetKind.dir : AssetKind → String
  | .images => "public/images"
  | .styles => "public/stylesheets"
  | .javascripts => "public/javascripts"

/-- One entry of the chronological trace.  `dequeue`, `buildBinaryCalled`,
`killCalled`, `killReturned` and `startCalled` mark calls and returns inside
the program; the others are calls that leave the program. -/
inductive Event
  /-- The runner received the task from the channel and dispatches on it. -/
  | dequeue (task : AppShellTask)
  /-- The call `assets.ResetDir(dir, true)`. -/
  | resetDir (dir : String)
  /-- The call `assets.X(cfg, entry).Build(isProduction)` of the kind. -/
  | assetBuild (kind : AssetKind) (entry : String) (isProduction : Bool)
  /-- The command `go test module`. -/
  | goTest (module : String)
  /-- Entry of `buildBinary(params...)`. -/
  | buildBinaryCalled (params : List String)
  /-- The command `go flags...` run with environment `env`. -/
  | goBuild (env : List String) (flags : List String)
  /-- Entry of `kill()`. -/
  | killCalled
  /-- The call `Process.Signal(os.Interrupt)`. -/
  | processSignal
  /-- The call `Process.Kill()`. -/
  | processKill
  /-- A timer of the given number of milliseconds ran out. -/
  | elapsed (ms : Nat)
  /-- Return of `kill()` with the given error. -/
  | killReturned (err : Option GoError)
  /-- Entry of `start()`; `idle` records whether, at that moment, the handle
  was nil or referred to a process that had exited. -/
  | startCalled (idle : Bool)
  /-- The call `command.Start()`. -/
  | commandStart (cmd : Cmd)
  /-- The warning of the restart case that the restart is skipped (line 109). -/
  | warnErrors
  /-- The message `Waiting for the file changes ...` that ends the restart
  case (line 112). -/
  | waiting
  deriving DecidableEq, Repr

/-- The outside of the program, over an abstract world `W`. -/
structure Env (W : Type) where
  /-- Outcome of `assets.ResetDir(dir, true)`. -/
  resetDir : String → W → Option GoError × W
  /-- Outcome of the asset compiler of the kind for one entry. -/
  assetBuild : AssetKind → String → Bool → W → Option GoError × W
  /-- Outcome of `go test module`. -/
  goTest : String → W → Option GoError × W
  /-- Outcome of `go flags...` under the environment `env`. -/
  goBuild : List String → List String → W → Option GoError × W
  /-- The field `ProcessState` of a command as the reaper goroutine left it:
  `none` when it is nil, `some b` when `Exited()` is `b`. -/
  processState : Cmd → W → Option Bool
  /-- Outcome of `Process.Signal(os.Interrupt)`. -/
  processSignal : Cmd → W → Option GoError × W
  /-- Outcome of `Process.Kill()`. -/
  processKill : Cmd → W → Option GoError × W
  /-- Outcome of `command.Start()`. -/
  commandStart : Cmd → W → Option GoError × W
  /-- The world after the given number of milliseconds. -/
  elapse : Nat → W → W

/-- Program state, world and trace. -/
structure St (W : Type) where
  app : AppShell
  world : W
  trace : List Event

/-- A function that returns a Go `error`. -/
abbrev Step (W : Type) := St W → Option GoError × St W

/-- A function that returns a Go `error` if it returns at all (`none`: the
recursion is deeper than the fuel allows, or the call panics). -/
abbrev FStep (W : Type) := St W → Option (Option GoError × St W)

section Model

variable {W : Type} (env : Env W) (rootConfig : ProjectConfig) (rt : Runtime)

/-- Append one event to the trace. -/
def St.log (s : St W) (e : Event) : St W :=
  { s with trace := s.trace ++ [e] }

/-- Perform an external call: record it, then let the environment answer. -/
def callExt (e : Event) (f : W → Option GoError × W) : Step W := fun s =>
  ((f s.world).1, { s with world := (f s.world).2, trace := s.trace ++ [e] })

/-! ## Asset build steps -/

/-- One `for _, x := range names { if err := functor(x.Name); err != nil { return err } }`
loop of `buildAssetsTraverse`: `some e` when the loop returned `e`, `none`
when it ran to its end. -/
def traverseLoop (functor : String → FStep W) : List String → FStep W
  | [], s => some (none, s)
  | name :: rest, s =>
    match functor name s with
    | none => none
    | some (some err, s1) => some (some err, s1)
    | some (none, s1) => traverseLoop functor rest s1

/-- The method `buildAssetsTraverse`: the vendor loop, then the entry loop. -/
def buildAssetsTraverse (functor : String → FStep W) : FStep W := fun s =>
  match traverseLoop functor rootConfig.vendorSets s with
  | none => none
  | some (some err, s1) => some (some err, s1)
  | some (none, s1) =>
    match traverseLoop functor rootConfig.entries s1 with
    | none => none
    | some (some err, s2) => some (some err, s2)
    | some (none, s2) => some (none, s2)

/-- The common body of `buildImages`, `buildStyles` and `buildJavaScripts`,
which differ only in the directory and the compiler.  The fuel bounds the
depth of the recursion through `buildAssetsTraverse`. -/
def buildAssets (kind : AssetKind) : Nat → String → FStep W
  | 0, _, _ => none
  | fuel + 1, entry, s =>
    if entry = "" then
      match callExt (.resetDir kind.dir) (env.resetDir kind.dir) s with
      | (some err, s1) => some (some err, s1)
      | (none, s1) => buildAssetsTraverse rootConfig (buildAssets kind fuel) s1
    else
      some (callExt (.assetBuild kind entry s.app.isProduction)
        (env.assetBuild kind entry s.app.isProduction) s)

/-- The method `buildImages`. -/
def buildImages : Nat → String → FStep W := buildAssets env rootConfig .images

/-- The method `buildStyles`. -/
def buildStyles : Nat → String → FStep W := buildAssets env rootConfig .styles

/-- The method `buildJavaScripts`. -/
def buildJavaScripts : Nat → String → FStep W := buildAssets env rootConfig .javascripts

/-! ## Test and binary build steps -/

/-- The method `binaryTest`. -/
def binaryTest (module : String) : Step W := fun s =>
  let module := if module = "" then "." else module
  callExt (.goTest module) (env.goTest module) s

/-- The effective target of `buildBinary(params...)`: lines 241-244. -/
def buildTarget (params : List String) : String × String :=
  match params with
  | [p0, p1] =>
    if rt.GOOS ≠ p0 ∨ rt.GOARCH ≠ p1 then (p0, p1) else (rt.GOOS, rt.GOARCH)
  | _ => (rt.GOOS, rt.GOARCH)

/-- The output file name that `buildBinary(params...)` computes: the
`Sprintf("%s-%s.%s.%s", ...)` of lines 247-249 and the suffix of lines 266-268. -/
def binaryFileName (params : List String) : String :=
  let goOs := (buildTarget rt params).1
  let goArch := (buildTarget rt params).2
  let binName := rootConfig.name ++ "-" ++ rootConfig.version ++ "." ++ goOs ++ "." ++ goArch
  if goOs = "windows" then binName ++ ".exe" else binName

/-- The environment that `buildBinary(params...)` gives the compiler: lines 260-265. -/
def buildEnvVars (params : List String) : List String :=
  ["PATH=" ++ rt.getenv "PATH", "GOOS=" ++ (buildTarget rt params).1,
   "GOARCH=" ++ (buildTarget rt params).2, "GOPATH=" ++ rt.getenv "GOPATH"]

/-- The arguments that `buildBinary(params...)` gives the `go` tool: the
build options of the mode (lines 250-257) between `build` and `-o binName`
(lines 270-273). -/
def buildFlags (isProduction : Bool) (params : List String) : List String :=
  let buildOpts :=
    if isProduction then rootConfig.distBuildOpts else rootConfig.packageBuildOpts
  ["build"] ++ buildOpts ++ ["-o", binaryFileName rootConfig rt params]

/-- The method `buildBinary`. -/
def buildBinary (params : List String) : Step W := fun s =>
  let binName := binaryFileName rootConfig rt params
  let envv := buildEnvVars rt params
  let flags := buildFlags rootConfig rt s.app.isProduction params
  match callExt (.goBuild envv flags) (env.goBuild envv flags) (s.log (.buildBinaryCalled params)) with
  | (some err, s1) => (some err, s1)
  | (none, s1) => (none, { s1 with app := { s1.app with binName := binName } })

/-! ## Process supervisor -/

/-- The field `ProcessState` of a handle: nil as long as the command has not
been launched (only a successful `start` spawns the goroutine that waits),
else what the environment reports. -/
def processStateOf (cmd : Cmd) (w : W) : Option Bool :=
  if cmd.launched then env.processState cmd w else none

/-- Whether the handle is nil or refers to a process that has exited: the
negation of the guard of `kill`. -/
def idle (s : St W) : Bool :=
  match s.app.command with
  | none => true
  | some cmd => processStateOf env cmd s.world == some true

/-- The method `kill`.  Inside the guard the first statement calls a method
of `command.Process`; for a command that was never launched this field is nil
and the call panics. -/
def kill : FStep W := fun s0 =>
  let s := s0.log .killCalled
  match s.app.command with
  | none => some (none, s.log (.killReturned none))
  | some cmd =>
    if processStateOf env cmd s.world = none ∨ processStateOf env cmd s.world = some false then
      if cmd.launched = false then none
      else
        let r :=
          if rt.GOOS = "windows" then callExt .processKill (env.processKill cmd) s
          else callExt .processSignal (env.processSignal cmd) s
        match r with
        | (some err, s1) => some (some err, s1.log (.killReturned (some err)))
        | (none, s1) =>
          let s2 :=
            if !rootConfig.isGraceful then
              let s3 : St W := { s1 with world := env.elapse 3000 s1.world,
                                          trace := s1.trace ++ [.elapsed 3000] }
              (callExt .processKill (env.processKill cmd) s3).2
            else s1
          some (none,
            ({ s2 with app := { s2.app with command := none } } : St W).log (.killReturned none))
    else some (none, s.log (.killReturned none))

/-- The method `start`.  The handle is assigned before `Start()` is called and
stays assigned when `Start()` fails; `Start()` sets `Process` when it
succeeds. -/
def start : Step W := fun s0 =>
  let s := s0.log (.startCalled (idle env s0))
  let cmd : Cmd := { path := "./" ++ s.app.binName, args := s.app.args, launched := false }
  let s1 : St W := { s with app := { s.app with command := some cmd } }
  match callExt (.commandStart cmd) (env.commandStart cmd) s1 with
  | (some err, s2) => (some err, s2)
  | (none, s2) =>
    (none, { s2 with app := { s2.app with command := some { cmd with launched := true } },
                     world := env.elapse 500 s2.world, trace := s2.trace ++ [.elapsed 500] })

/-! ## Task queue -/

/-- The method `executeTask`, on the contents of `taskChan`: one send per
task, then the send of the restart task. -/
def executeTask (taskChan : List AppShellTask) (tasks : List AppShellTask) : List AppShellTask :=
  (tasks.foldl (fun ch task => ch ++ [task]) taskChan) ++ [⟨.kTaskBinaryRestart, ""⟩]

/-- Store the result of a build step in `curError`. -/
def setCurError (r : Option GoError × St W) : St W :=
  { r.2 with app := { r.2.app with curError := r.1 } }

/-- The body of the loop of `startRunner`: the `switch` on the task type. -/
def runTask (fuel : Nat) (task : AppShellTask) (s : St W) : Option (St W) :=
  match task.taskType with
  | .kTaskBuildImages => (buildImages env rootConfig fuel task.module s).map setCurError
  | .kTaskBuildStyles => (buildStyles env rootConfig fuel task.module s).map setCurError
  | .kTaskBuildJavaScripts => (buildJavaScripts env rootConfig fuel task.module s).map setCurError
  | .kTaskBinaryTest => some (setCurError (binaryTest env task.module s))
  | .kTaskBuildBinary => some (setCurError (buildBinary env rootConfig rt [] s))
  | .kTaskBinaryRestart =>
    let done : Option (St W) :=
      if s.app.curError = none then
        match kill env rootConfig rt s with
        | none => none
        | some (some _, s1) => some s1
        | some (none, s1) => some (start env s1).2
      else some (s.log .warnErrors)
    done.map fun s2 => s2.log .waiting

/-- The method `startRunner`, draining the given contents of `taskChan` in
order; `none` when a handler does not return. -/
def startRunner (fuel : Nat) : List AppShellTask → St W → Option (St W)
  | [], s => some s
  | task :: rest, s =>
    match runTask env rootConfig rt fuel task (s.log (.dequeue task)) with
    | none => none
    | some s1 => startRunner fuel rest s1

/-- The tasks that `Run` hands to `executeTask`. -/
def runBatch : List AppShellTask :=
  [⟨.kTaskBuildImages, ""⟩, ⟨.kTaskBuildStyles, ""⟩, ⟨.kTaskBuildJavaScripts, ""⟩,
   ⟨.kTaskBuildBinary, ""⟩]

/-- The method `Run`: development mode, then the runner drains what
`executeTask` sends for the first batch. -/
def Run (fuel : Nat) (s : St W) : Option (St W) :=
  startRunner env rootConfig rt fuel (executeTask [] runBatch)
    { s with app := { s.app with isProduction := false } }

/-! ## Distribution pass -/

/-- The loop over `targets` in `Dist`, with the `visited` set and the
current value of `err`. -/
def distLoop : List (String × String) → List String → Option GoError → Step W
  | [], _, err, s => (err, s)
  | target :: rest, visited, err, s =>
    let buildTarget := target.1 ++ "_" ++ target.2
    if buildTarget ∈ visited then distLoop rest visited err s
    else
      match buildBinary env rootConfig rt [target.1, target.2] s with
      | (err1, s1) => distLoop rest (buildTarget :: visited) err1 s1

/-- The method `Dist`. -/
def Dist (fuel : Nat) : FStep W := fun s0 =>
  let s : St W := { s0 with app := { s0.app with isProduction := true } }
  match buildImages env rootConfig fuel "" s with
  | none => none
  | some (some err, s1) => some (some err, s1)
  | some (none, s1) =>
    match buildStyles env rootConfig fuel "" s1 with
    | none => none
    | some (some err, s2) => some (some err, s2)
    | some (none, s2) =>
      match buildJavaScripts env rootConfig fuel "" s2 with
      | none => none
      | some (some err, s3) => some (some err, s3)
      | some (none, s3) =>
        match binaryTest env "" s3 with
        | (some err, s4) => some (some err, s4)
        | (none, s4) =>
          let targets := rootConfig.crossTargets ++ [(rt.GOOS, rt.GOARCH)]
          some (distLoop env rootConfig rt targets [] none s4)

end Model

/-! ## Observations on traces -/

/-- The tasks the runner dequeued, in order. -/
def dequeued (tr : List Event) : List AppShellTask :=
  tr.filterMap fun e => match e with
    | .dequeue task => some task
    | _ => none

/-- The parameter lists `buildBinary` was called with, in order. -/
def binaryCalls (tr : List Event) : List (List String) :=
  tr.filterMap fun e => match e with
    | .buildBinaryCalled params => some params
    | _ => none

/-- The number of `Process.Kill()` calls in a trace. -/
def killCount (tr : List Event) : Nat :=
  tr.count .processKill

/-- The event is a call made by a build step (asset, test or binary). -/
def Event.isBuild : Event → Bool
  | .resetDir _ => true
  | .assetBuild _ _ _ => true
  | .goTest _ => true
  | .buildBinaryCalled _ => true
  | .goBuild _ _ => true
  | _ => false

/-- The task is a build task: any task but the restart. -/
def AppShellTask.isBuild (task : AppShellTask) : Bool :=
  task.taskType != .kTaskBinaryRestart

/-- The outcomes of the asset compiler on the inputs in sequence, each in the
world its predecessors left. -/
def buildOutcomes {W : Type} (compile : String → W → Option GoError × W) :
    List String → W → List (Option GoError)
  | [], _ => []
  | name :: rest, w => (compile name w).1 :: buildOutcomes compile rest (compile name w).2

/-- The inputs up to and including the first one whose outcome is an error
(all of them when there is none). -/
def attempted : List String → List (Option GoError) → List String
  | name :: rest, none :: outcomes => name :: attempted rest outcomes
  | name :: _, some _ :: _ => [name]
  | _, _ => []

/-- The first error among the outcomes, `none` when there is none. -/
def firstError : List (Option GoError) → Option GoError
  | [] => none
  | none :: outcomes => firstError outcomes
  | some err :: _ => some err

/-- No vendor set and no entry has the empty name. -/
def ProjectConfig.NamesOk (cfg : ProjectConfig) : Prop :=
  ∀ name ∈ cfg.vendorSets ++ cfg.entries, name ≠ ""

instance (cfg : ProjectConfig) : Decidable cfg.NamesOk := by
  unfold ProjectConfig.NamesOk; infer_instance

/-- The string `os_arch` by which `Dist` tells targets apart. -/
def targetKey (target : String × String) : String :=
  target.1 ++ "_" ++ target.2

/-- A target list with every later occurrence of an already seen `os_arch`
string removed, the first occurrences in their order. -/
def uniqueTargets : List (String × String) → List (String × String)
  | [] => []
  | target :: rest =>
    target :: (uniqueTargets rest).filter fun u => targetKey u != targetKey target

/-- In a trace, `next` may directly follow `prev`: an entry of `start` must
follow a successful return of `kill` and must find the handle idle. -/
def StartOk (prev next : Event) : Prop :=
  ∀ b, next = .startCalled b → b = true ∧ prev = .killReturned none

/-- Every entry of `start` in the trace directly follows a successful return
of `kill` and finds the handle idle. -/
def Guarded (tr : List Event) : Prop :=
  List.Chain' StartOk tr ∧ ∀ b, tr.head? ≠ some (.startCalled b)

/-- The event is a call of an asset step: a directory reset or a compiler
call. -/
def Event.isAsset : Event → Bool
  | .resetDir _ => true
  | .assetBuild _ _ _ => true
  | _ => false

/-- The step from `s` to `t` kept the orchestrator state and appended only
calls of asset steps to the trace. -/
def AssetFrame {W : Type} (s t : St W) : Prop :=
  t.app = s.app ∧ ∃ evs, t.trace = s.trace ++ evs ∧ ∀ e ∈ evs, e.isAsset = true

/-- The step from `s` to `t` kept the process handle and appended only calls
of build steps to the trace. -/
def BuildFrame {W : Type} (s t : St W) : Prop :=
  t.app.command = s.app.command ∧ ∃ evs, t.trace = s.trace ++ evs ∧ ∀ e ∈ evs, e.isBuild = true

/-- The event is a call on the supervised process or a timer. -/
def Event.isProcess : Event → Bool
  | .processSignal => true
  | .processKill => true
  | .elapsed _ => true
  | .commandStart _ => true
  | _ => false

/-- The events of one call of an asset step by the runner: for the empty
entry name the reset of the directory of the kind, then asset calls only; for
another entry name the one compiler call for that entry. -/
def AssetEvents (kind : AssetKind) (entry : String) (evs : List Event) : Prop :=
  if entry = "" then ∃ rest, evs = .resetDir kind.dir :: rest ∧ ∀ e ∈ rest, e.isAsset = true
  else ∃ isProduction, evs = [.assetBuild kind entry isProduction]

/-- The events of one run of the restart case: the warning alone when the
restart is skipped, else one call of `kill` and, after its return, at most
one call of `start`. -/
def RestartEvents (body : List Event) : Prop :=
  body = [.warnErrors]
    ∨ ∃ mid r rest, body = .killCalled :: mid ++ .killReturned r :: rest
        ∧ (∀ e ∈ mid, e.isProcess = true)
        ∧ (rest = [] ∨ ∃ b post, rest = .startCalled b :: post ∧ ∀ e ∈ post, e.isProcess = true)

/-- The events that the handler of a task leaves in the trace when the runner
executes "the corresponding build step or supervisor operation" once: the
asset step of the kind for the module of the task, `go test` for the module,
`buildBinary` without parameters, or the restart case, which always ends with
the waiting message. -/
def HandlerEvents (task : AppShellTask) (evs : List Event) : Prop :=
  match task.taskType with
  | .kTaskBuildImages => AssetEvents .images task.module evs
  | .kTaskBuildStyles => AssetEvents .styles task.module evs
  | .kTaskBuildJavaScripts => AssetEvents .javascripts task.module evs
  | .kTaskBinaryTest => evs = [.goTest (if task.module = "" then "." else task.module)]
  | .kTaskBuildBinary => ∃ envv flags, evs = [.buildBinaryCalled [], .goBuild envv flags]
  | .kTaskBinaryRestart => ∃ body, evs = body ++ [.waiting] ∧ RestartEvents body

/-- The trace of a run that served the tasks in order: for each task its
dequeue marker, then the events of its handler, one handler per task. -/
inductive Served : List AppShellTask → List Event → Prop
  | nil : Served [] []
  | cons {task : AppShellTask} {evs : List Event} {rest : List AppShellTask}
      {more : List Event} :
      HandlerEvents task evs → Served rest more →
        Served (task :: rest) (.dequeue task :: (evs ++ more))

/-- The handle, when set, refers to a launched command. -/
def HandleOk {W : Type} (s : St W) : Prop :=
  ∀ cmd, s.app.command = some cmd → cmd.launched = true

/-- The event is neither an entry of `start` nor a dequeue. -/
def Event.isPlain : Event → Bool
  | .startCalled _ => false
  | .dequeue _ => false
  | _ => true

/-! ## Concrete instances -/

/-- An environment without state in which every call succeeds and the
supervised process never exits by itself. -/
def calmEnv : Env Unit :=
  { resetDir := fun _ w => (none, w)
    assetBuild := fun _ _ _ w => (none, w)
    goTest := fun _ w => (none, w)
    goBuild := fun _ _ w => (none, w)
    processState := fun _ _ => none
    processSignal := fun _ w => (none, w)
    processKill := fun _ w => (none, w)
    commandStart := fun _ w => (none, w)
    elapse := fun _ w => w }

/-- The package `demo` 1.2.0 with two vendor sets and two entries. -/
def demoConfig : ProjectConfig :=
  { name := "demo", version := "1.2.0", packageBuildOpts := [], isGraceful := false,
    distBuildOpts := ["-a"], crossTargets := [], vendorSets := ["v1", "v2"],
    entries := ["e1", "e2"] }

/-- A linux/amd64 host with an empty process environment. -/
def linuxHost : Runtime :=
  { GOOS := "linux", GOARCH := "amd64", getenv := fun _ => "" }

/-- A windows/amd64 host with an empty process environment. -/
def windowsHost : Runtime :=
  { GOOS := "windows", GOARCH := "amd64", getenv := fun _ => "" }

/-- The state right after `NewAppShell(args)`. -/
def initSt {W : Type} (args : List String) (w : W) : St W :=
  { app := NewAppShell args, world := w, trace := [] }

/-- A state in which a process is supervised. -/
def runningSt : St Unit :=
  { app := { NewAppShell [] with binName := "demo-1.2.0.linux.amd64",
                                 command := some ⟨"./demo-1.2.0.linux.amd64", [], true⟩ },
    world := (), trace := [] }

/-- An environment without state in which the reset of a directory in
`badDirs`, the asset build of an entry in `badEntries` and the binary build
for a `GOOS` in `badGoos` fail, and every other call succeeds. -/
def pickyEnv (badDirs badEntries badGoos : List String) : Env Unit :=
  { calmEnv with
    resetDir := fun dir w => (if dir ∈ badDirs then some ("reset failed: " ++ dir) else none, w)
    assetBuild := fun _ entry _ w =>
      (if entry ∈ badEntries then some ("build failed: " ++ entry) else none, w)
    goBuild := fun envv _ w =>
      (if badGoos.any (fun os => ("GOOS=" ++ os) ∈ envv) then some "go build failed" else none, w) }

/-- An environment whose world counts the directory resets; only the first
reset succeeds, every other call succeeds. -/
def countingEnv : Env Nat :=
  { resetDir := fun _ w => (if w = 0 then none else some "reset failed", w + 1)
    assetBuild := fun _ _ _ w => (none, w)
    goTest := fun _ w => (none, w)
    goBuild := fun _ _ w => (none, w)
    processState := fun _ _ => none
    processSignal := fun _ w => (none, w)
    processKill := fun _ w => (none, w)
    commandStart := fun _ w => (none, w)
    elapse := fun _ w => w }

/-- An environment without state in which `Start()` fails and every other
call succeeds. -/
def noStartEnv : Env Unit :=
  { calmEnv with commandStart := fun _ w => (some "exec failed", w) }

/-- A configuration whose only vendor set has the empty name. -/
def emptyVendorConfig : ProjectConfig :=
  { demoConfig with vendorSets := [""], entries := [] }

/-- A configuration with one vendor set `v1` and one entry with the empty name. -/
def emptyEntryConfig : ProjectConfig :=
  { demoConfig with vendorSets := ["v1"], entries := [""] }

/-- A configuration with one vendor set and no entry. -/
def smallConfig : ProjectConfig :=
  { demoConfig with vendorSets := ["v1"], entries := [] }

/-- The restart task that `executeTask` appends. -/
def restartTask : AppShellTask :=
  ⟨.kTaskBinaryRestart, ""⟩

/-- The cross targets `(A,x)`, `(B,y)`, `(A,x)`. -/
def repeatedTargetsConfig : ProjectConfig :=
  { smallConfig with crossTargets := [("A", "x"), ("B", "y"), ("A", "x")] }

/-- A host `(A,x)` with an empty process environment. -/
def hostAx : Runtime :=
  { GOOS := "A", GOARCH := "x", getenv := fun _ => "" }

/-- The cross targets linux/amd64 and darwin/amd64. -/
def crossConfig : ProjectConfig :=
  { smallConfig with crossTargets := [("linux", "amd64"), ("darwin", "amd64")] }

/-! ## Binary build: file name and frame -/

theorem buildTarget_pair (rt : Runtime) (os arch : String) :
    buildTarget rt [os, arch] = (os, arch) := by
  unfold buildTarget
  by_cases h : rt.GOOS ≠ os ∨ rt.GOARCH ≠ arch
  · simp [h]
  · have h1 : rt.GOOS = os := by
      by_contra hne; exact h (Or.inl hne)
    have h2 : rt.GOARCH = arch := by
      by_contra hne; exact h (Or.inr hne)
    simp [h1, h2]

/-- C6: with exactly two parameters `(os, arch)` the file name computed by
`buildBinary` is `name-version.os.arch`, with `.exe` appended exactly when
`os` is `windows`; with no parameters it is the same for the host target; and
this name is the one handed to the compiler after `-o`. -/
theorem binary_file_name (cfg : ProjectConfig) (rt : Runtime) (os arch : String) :
    binaryFileName cfg rt [os, arch]
        = (if os = "windows" then
            cfg.name ++ "-" ++ cfg.version ++ "." ++ os ++ "." ++ arch ++ ".exe"
          else cfg.name ++ "-" ++ cfg.version ++ "." ++ os ++ "." ++ arch)
      ∧ binaryFileName cfg rt [] = binaryFileName cfg rt [rt.GOOS, rt.GOARCH]
      ∧ (∀ isProduction params, ∃ opts,
          buildFlags cfg rt isProduction params
            = ["build"] ++ opts ++ ["-o", binaryFileName cfg rt params])
      ∧ binaryFileName demoConfig linuxHost ["linux", "amd64"] = "demo-1.2.0.linux.amd64"
      ∧ binaryFileName demoConfig linuxHost ["windows", "amd64"]
          = "demo-1.2.0.windows.amd64.exe" := by
  refine ⟨?_, ?_, ?_, by decide, by decide⟩
  · simp only [binaryFileName, buildTarget_pair]
  · simp only [binaryFileName, buildTarget_pair]
    rfl
  · intro isProduction params
    exact ⟨_, rfl⟩

/-- C9: `buildBinary` returns the compiler's error and leaves `binName` as it
was when the compiler fails; it returns nil and sets `binName` to the computed
file name when the compiler succeeds; `isProduction`, `curError`, `args` and
the process handle are left as they were in both cases. -/
theorem buildBinary_frame {W : Type} (env : Env W) (cfg : ProjectConfig) (rt : Runtime)
    (params : List String) (s : St W) :
    (∀ err, (env.goBuild (buildEnvVars rt params)
              (buildFlags cfg rt s.app.isProduction params) s.world).1 = some err →
        (buildBinary env cfg rt params s).1 = some err
          ∧ (buildBinary env cfg rt params s).2.app.binName = s.app.binName)
      ∧ ((env.goBuild (buildEnvVars rt params)
              (buildFlags cfg rt s.app.isProduction params) s.world).1 = none →
        (buildBinary env cfg rt params s).1 = none
          ∧ (buildBinary env cfg rt params s).2.app.binName = binaryFileName cfg rt params)
      ∧ (buildBinary env cfg rt params s).2.app.isProduction = s.app.isProduction
      ∧ (buildBinary env cfg rt params s).2.app.curError = s.app.curError
      ∧ (buildBinary env cfg rt params s).2.app.args = s.app.args
      ∧ (buildBinary env cfg rt params s).2.app.command = s.app.command := by
  unfold buildBinary callExt St.log
  cases h : (env.goBuild (buildEnvVars rt params)
      (buildFlags cfg rt s.app.isProduction params) s.world).1 <;> simp [h]

/-! ## Process supervisor: the forced kill -/

/-- C7 (as the code has it): a non-graceful `kill` of a running process (the
handle refers to a launched command that has not exited) whose first signal
succeeds returns nil, clears the handle, and issues `Process.Kill()` once
after the 3 second timer on a host other than windows, where the first signal
is an interrupt, and twice on windows, where the first signal is itself
`Process.Kill()`. -/
theorem kill_forced {W : Type} (env : Env W) (cfg : ProjectConfig) (rt : Runtime)
    (cmd : Cmd) (s : St W)
    (hcmd : s.app.command = some cmd)
    (hlaunched : cmd.launched = true)
    (hrun : env.processState cmd s.world = none ∨ env.processState cmd s.world = some false)
    (hmode : cfg.isGraceful = false)
    (hsig : (if rt.GOOS = "windows" then env.processKill cmd s.world
              else env.processSignal cmd s.world).1 = none) :
    ∃ t, kill env cfg rt s = some (none, t)
      ∧ t.app.command = none
      ∧ t.trace
          = s.trace ++ [.killCalled,
              if rt.GOOS = "windows" then .processKill else .processSignal,
              .elapsed 3000, .processKill, .killReturned none]
      ∧ killCount t.trace = killCount s.trace + (if rt.GOOS = "windows" then 2 else 1) := by
  by_cases hw : rt.GOOS = "windows"
  · simp only [hw, if_true] at hsig
    simp [kill, processStateOf, St.log, callExt, hcmd, hlaunched, hrun, hmode, hw, hsig,
      killCount]
  · simp only [hw, if_false] at hsig
    simp [kill, processStateOf, St.log, callExt, hcmd, hlaunched, hrun, hmode, hw, hsig,
      killCount]

/-- Witness for C7: a linux host, one `Process.Kill()`. -/
theorem kill_forced_witness :
    ∃ t, kill calmEnv demoConfig linuxHost runningSt = some (none, t)
      ∧ t.app.command = none
      ∧ t.trace
          = runningSt.trace ++ [.killCalled,
              if linuxHost.GOOS = "windows" then .processKill else .processSignal,
              .elapsed 3000, .processKill, .killReturned none]
      ∧ killCount t.trace
          = killCount runningSt.trace + (if linuxHost.GOOS = "windows" then 2 else 1) :=
  kill_forced calmEnv demoConfig linuxHost ⟨"./demo-1.2.0.linux.amd64", [], true⟩ runningSt
    rfl rfl (Or.inl rfl) rfl (by decide)

/-- Counterexample to C7 as stated: on a windows host the same call issues
`Process.Kill()` twice, every signal succeeding. -/
theorem windows_kill_issued_twice :
    runningSt.app.command = some ⟨"./demo-1.2.0.linux.amd64", [], true⟩
      ∧ calmEnv.processState ⟨"./demo-1.2.0.linux.amd64", [], true⟩ runningSt.world = none
      ∧ demoConfig.isGraceful = false
      ∧ (kill calmEnv demoConfig windowsHost runningSt).map (fun r => (r.1, r.2.trace))
          = some (none,
              [.killCalled, .processKill, .elapsed 3000, .processKill, .killReturned none])
      ∧ (kill calmEnv demoConfig windowsHost runningSt).map (fun r => killCount r.2.trace)
          = some 2 := by
  decide

/-- After a failed `Start()` the handle refers to a command without a
process, and the next `kill` panics. -/
theorem kill_panics_after_failed_start :
    (start noStartEnv runningSt).1 = some "exec failed"
      ∧ (start noStartEnv runningSt).2.app.command
          = some ⟨"./demo-1.2.0.linux.amd64", [], false⟩
      ∧ (kill noStartEnv demoConfig linuxHost (start noStartEnv runningSt).2).isNone = true := by
  decide

/-! ## Asset builds: the traversal -/

theorem buildAssets_entry {W : Type} (env : Env W) (cfg : ProjectConfig) (kind : AssetKind)
    (fuel : Nat) (entry : String) (h : entry ≠ "") (s : St W) :
    buildAssets env cfg kind (fuel + 1) entry s
      = some (callExt (.assetBuild kind entry s.app.isProduction)
          (env.assetBuild kind entry s.app.isProduction) s) := by
  simp [buildAssets, h]

theorem traverseLoop_append {W : Type} (f : String → FStep W) (xs ys : List String) (s : St W) :
    traverseLoop f (xs ++ ys) s
      = match traverseLoop f xs s with
        | none => none
        | some (some err, s1) => some (some err, s1)
        | some (none, s1) => traverseLoop f ys s1 := by
  induction xs generalizing s with
  | nil => simp [traverseLoop]
  | cons x xs ih =>
    simp only [List.cons_append, traverseLoop]
    rcases hf : f x s with _ | ⟨_ | err, s1⟩
    · simp
    · simp [ih]
    · simp

theorem buildAssetsTraverse_eq {W : Type} (cfg : ProjectConfig) (f : String → FStep W)
    (s : St W) :
    buildAssetsTraverse cfg f s = traverseLoop f (cfg.vendorSets ++ cfg.entries) s := by
  rw [traverseLoop_append]
  unfold buildAssetsTraverse
  rcases traverseLoop f cfg.vendorSets s with _ | ⟨_ | err, s1⟩
  · rfl
  · simp only
    rcases traverseLoop f cfg.entries s1 with _ | ⟨_ | err, s2⟩ <;> rfl
  · rfl

/-- Over inputs with non-empty names, the loop of a full rebuild attempts the
inputs up to the first failure and returns that failure. -/
theorem traverseLoop_buildAssets {W : Type} (env : Env W) (cfg : ProjectConfig)
    (kind : AssetKind) (fuel : Nat) (names : List String) (hn : ∀ name ∈ names, name ≠ "")
    (s : St W) :
    ∃ w, traverseLoop (buildAssets env cfg kind (fuel + 1)) names s
      = some (firstError (buildOutcomes (fun n => env.assetBuild kind n s.app.isProduction)
                names s.world),
          { app := s.app, world := w,
            trace := s.trace ++ (attempted names
              (buildOutcomes (fun n => env.assetBuild kind n s.app.isProduction)
                names s.world)).map fun n => .assetBuild kind n s.app.isProduction }) := by
  induction names generalizing s with
  | nil => exact ⟨s.world, by simp [traverseLoop, buildOutcomes, firstError, attempted]⟩
  | cons x xs ih =>
    have hx : x ≠ "" := hn x (List.mem_cons_self _ _)
    have hxs : ∀ name ∈ xs, name ≠ "" := fun n h => hn n (List.mem_cons_of_mem _ h)
    simp only [traverseLoop, buildAssets_entry env cfg kind fuel x hx, callExt, buildOutcomes]
    rcases ho : (env.assetBuild kind x s.app.isProduction s.world).1 with _ | err
    · obtain ⟨w, hw⟩ := ih hxs
        { s with world := (env.assetBuild kind x s.app.isProduction s.world).2,
                 trace := s.trace ++ [.assetBuild kind x s.app.isProduction] }
      refine ⟨w, ?_⟩
      simp only [hw, firstError, attempted, List.map_cons, List.append_assoc,
        List.singleton_append]
    · exact ⟨(env.assetBuild kind x s.app.isProduction s.world).2,
        by simp [firstError, attempted]⟩

theorem attempted_prefix {W : Type} (compile : String → W → Option GoError × W)
    (names : List String) (w : W) :
    attempted names (buildOutcomes compile names w) <+: names := by
  induction names generalizing w with
  | nil => simp [buildOutcomes, attempted]
  | cons x xs ih =>
    simp only [buildOutcomes]
    rcases (compile x w).1 with _ | err
    · simpa [attempted] using ih (compile x w).2
    · simp [attempted]

theorem buildOutcomes_length {W : Type} (compile : String → W → Option GoError × W)
    (names : List String) (w : W) :
    (buildOutcomes compile names w).length = names.length := by
  induction names generalizing w with
  | nil => rfl
  | cons x xs ih => simp [buildOutcomes, ih]

/-- What `attempted` and `firstError` say: without an error every input is
attempted; with a first error at position `k` exactly the inputs up to `k`
are attempted and the error is the outcome of input `k`. -/
theorem attempted_firstError (names : List String) (os : List (Option GoError))
    (hlen : os.length = names.length) :
    (firstError os = none → attempted names os = names ∧ ∀ o ∈ os, o = none)
      ∧ (∀ err, firstError os = some err →
          ∃ k, k < names.length ∧ attempted names os = names.take (k + 1)
            ∧ os[k]? = some (some err) ∧ ∀ j, j < k → os[j]? = some none) := by
  induction names generalizing os with
  | nil =>
    cases os with
    | nil => simp [firstError, attempted]
    | cons o os => simp at hlen
  | cons x xs ih =>
    cases os with
    | nil => simp at hlen
    | cons o os =>
      have hlen' : os.length = xs.length := by simpa using hlen
      obtain ⟨ih1, ih2⟩ := ih os hlen'
      cases o with
      | none =>
        refine ⟨fun h => ?_, fun err h => ?_⟩
        · obtain ⟨h1, h2⟩ := ih1 (by simpa [firstError] using h)
          exact ⟨by simp [attempted, h1], by simpa using h2⟩
        · obtain ⟨k, hk, h1, h2, h3⟩ := ih2 err (by simpa [firstError] using h)
          refine ⟨k + 1, by simpa using hk, by simp [attempted, h1], by simpa using h2, ?_⟩
          intro j hj
          cases j with
          | zero => simp
          | succ j => simpa using h3 j (by omega)
      | some e =>
        refine ⟨fun h => by simp [firstError] at h, fun err h => ?_⟩
        have he : e = err := by simpa [firstError] using h
        exact ⟨0, by simp, by simp [attempted], by simp [he], fun j hj => by omega⟩

/-- A full rebuild whose reset fails returns the reset's error at once. -/
theorem buildAssets_reset_failed {W : Type} (env : Env W) (cfg : ProjectConfig)
    (kind : AssetKind) (fuel : Nat) (s : St W) (err : GoError)
    (hreset : (env.resetDir kind.dir s.world).1 = some err) :
    buildAssets env cfg kind (fuel + 1) "" s
      = some (some err, { app := s.app, world := (env.resetDir kind.dir s.world).2,
                          trace := s.trace ++ [.resetDir kind.dir] }) := by
  simp [buildAssets, callExt, hreset]

/-- A full rebuild over non-empty names whose reset succeeds: the reset, then
the inputs up to the first failure. -/
theorem buildAssets_full {W : Type} (env : Env W) (cfg : ProjectConfig) (kind : AssetKind)
    (fuel : Nat) (s : St W) (hn : cfg.NamesOk)
    (hreset : (env.resetDir kind.dir s.world).1 = none) :
    ∃ w, buildAssets env cfg kind (fuel + 2) "" s
      = some (firstError (buildOutcomes (fun n => env.assetBuild kind n s.app.isProduction)
                (cfg.vendorSets ++ cfg.entries) (env.resetDir kind.dir s.world).2),
          { app := s.app, world := w,
            trace := s.trace ++ .resetDir kind.dir ::
              (attempted (cfg.vendorSets ++ cfg.entries)
                (buildOutcomes (fun n => env.assetBuild kind n s.app.isProduction)
                  (cfg.vendorSets ++ cfg.entries) (env.resetDir kind.dir s.world).2)).map
                fun n => .assetBuild kind n s.app.isProduction }) := by
  obtain ⟨w, hw⟩ := traverseLoop_buildAssets env cfg kind fuel (cfg.vendorSets ++ cfg.entries) hn
    { s with world := (env.resetDir kind.dir s.world).2,
             trace := s.trace ++ [.resetDir kind.dir] }
  refine ⟨w, ?_⟩
  rw [buildAssets]
  simp only [↓reduceIte, callExt, hreset, buildAssetsTraverse_eq]
  rw [hw]
  simp only [List.append_assoc, List.singleton_append]

theorem calmEnv_resetDir (dir : String) (w : Unit) : (calmEnv.resetDir dir w).1 = none := rfl

theorem calmEnv_assetBuild (kind : AssetKind) (entry : String) (b : Bool) (w : Unit) :
    (calmEnv.assetBuild kind entry b w).1 = none := rfl

/-- With a vendor set of the empty name, a full rebuild in which every call
succeeds never returns: whatever the fuel, the recursion goes deeper. -/
theorem buildAssets_emptyVendor_none (kind : AssetKind) (fuel : Nat) (s : St Unit) :
    buildAssets calmEnv emptyVendorConfig kind fuel "" s = none := by
  induction fuel generalizing s with
  | zero => rfl
  | succ n ih =>
    have hv : emptyVendorConfig.vendorSets ++ emptyVendorConfig.entries = [""] := rfl
    rw [buildAssets]
    simp only [↓reduceIte, callExt, calmEnv_resetDir, buildAssetsTraverse_eq, hv,
      traverseLoop, ih]

/-- The same with the empty name among the entries, after a vendor set. -/
theorem buildAssets_emptyEntry_none (kind : AssetKind) (fuel : Nat) (s : St Unit) :
    buildAssets calmEnv emptyEntryConfig kind fuel "" s = none := by
  induction fuel generalizing s with
  | zero => rfl
  | succ n ih =>
    have hv : emptyEntryConfig.vendorSets ++ emptyEntryConfig.entries = ["v1", ""] := rfl
    rw [buildAssets]
    simp only [↓reduceIte, callExt, calmEnv_resetDir, buildAssetsTraverse_eq, hv, traverseLoop]
    cases n with
    | zero => rfl
    | succ m =>
      rw [buildAssets_entry calmEnv emptyEntryConfig kind m "v1" (by decide)]
      simp only [callExt, calmEnv_assetBuild, ih]

/-- C4 (as the code has it): when no vendor set and no entry has the empty
name and the reset succeeds, a full rebuild of an asset kind returns; it
attempts the inputs in the order vendor sets, entries, up to and including the
first input whose build fails, and returns that input's error; it returns nil
exactly when every input succeeds. -/
theorem full_rebuild_fail_fast {W : Type} (env : Env W) (cfg : ProjectConfig)
    (kind : AssetKind) (fuel : Nat) (s : St W) (hn : cfg.NamesOk)
    (hreset : (env.resetDir kind.dir s.world).1 = none) :
    ∃ (r : Option GoError) (s' : St W) (tried : List String)
      (outcomes : List (Option GoError)),
      outcomes = buildOutcomes (fun n => env.assetBuild kind n s.app.isProduction)
          (cfg.vendorSets ++ cfg.entries) (env.resetDir kind.dir s.world).2
      ∧ buildAssets env cfg kind (fuel + 2) "" s = some (r, s')
      ∧ s'.trace = s.trace ++ .resetDir kind.dir ::
          tried.map (fun n => .assetBuild kind n s.app.isProduction)
      ∧ (r = none ↔ ∀ o ∈ outcomes, o = none)
      ∧ (r = none → tried = cfg.vendorSets ++ cfg.entries)
      ∧ (∀ err, r = some err →
          ∃ k, k < (cfg.vendorSets ++ cfg.entries).length
            ∧ tried = (cfg.vendorSets ++ cfg.entries).take (k + 1)
            ∧ outcomes[k]? = some (some err) ∧ ∀ j, j < k → outcomes[j]? = some none) := by
  obtain ⟨w, hw⟩ := buildAssets_full env cfg kind fuel s hn hreset
  obtain ⟨h1, h2⟩ := attempted_firstError (cfg.vendorSets ++ cfg.entries)
    (buildOutcomes (fun n => env.assetBuild kind n s.app.isProduction)
      (cfg.vendorSets ++ cfg.entries) (env.resetDir kind.dir s.world).2)
    (buildOutcomes_length _ _ _)
  refine ⟨_, _, _, _, rfl, hw, rfl, ⟨fun h => (h1 h).2, fun h => ?_⟩, fun h => (h1 h).1, h2⟩
  cases hf : firstError (buildOutcomes (fun n => env.assetBuild kind n s.app.isProduction)
      (cfg.vendorSets ++ cfg.entries) (env.resetDir kind.dir s.world).2) with
  | none => rfl
  | some err =>
    obtain ⟨k, _, _, hk, _⟩ := h2 err hf
    have := h _ (List.getElem?_mem hk)
    simp at this

/-- Witness for C4: vendor sets `v1`, `v2`, entries `e1`, `e2`, the build of
`v2` failing. -/
theorem full_rebuild_fail_fast_witness :
    (∃ (r : Option GoError) (s' : St Unit) (tried : List String)
      (outcomes : List (Option GoError)),
      outcomes = buildOutcomes
          (fun n => (pickyEnv [] ["v2"] []).assetBuild .images n (initSt [] ()).app.isProduction)
          (demoConfig.vendorSets ++ demoConfig.entries)
          ((pickyEnv [] ["v2"] []).resetDir AssetKind.images.dir (initSt [] ()).world).2
      ∧ buildAssets (pickyEnv [] ["v2"] []) demoConfig .images (0 + 2) "" (initSt [] ())
          = some (r, s')
      ∧ s'.trace = (initSt [] ()).trace ++ .resetDir AssetKind.images.dir ::
          tried.map (fun n => .assetBuild .images n (initSt [] ()).app.isProduction)
      ∧ (r = none ↔ ∀ o ∈ outcomes, o = none)
      ∧ (r = none → tried = demoConfig.vendorSets ++ demoConfig.entries)
      ∧ (∀ err, r = some err →
          ∃ k, k < (demoConfig.vendorSets ++ demoConfig.entries).length
            ∧ tried = (demoConfig.vendorSets ++ demoConfig.entries).take (k + 1)
            ∧ outcomes[k]? = some (some err) ∧ ∀ j, j < k → outcomes[j]? = some none))
      ∧ (buildImages (pickyEnv [] ["v2"] []) demoConfig 2 "" (initSt [] ())).map
            (fun r => (r.1, r.2.trace))
          = some (some "build failed: v2",
              [.resetDir "public/images", .assetBuild .images "v1" false,
               .assetBuild .images "v2" false]) :=
  ⟨full_rebuild_fail_fast (pickyEnv [] ["v2"] []) demoConfig .images 0 (initSt [] ())
    (by decide) (by decide), by decide⟩

/-- Counterexample to C4 as stated: with vendor set `v1` and an entry of the
empty name, every reset and every build succeeding, the full rebuild of the
stylesheets never returns, so it does not return nil. -/
theorem full_rebuild_empty_entry_diverges :
    emptyEntryConfig.vendorSets = ["v1"] ∧ emptyEntryConfig.entries = [""]
      ∧ ¬ ∃ fuel r, buildStyles calmEnv emptyEntryConfig fuel "" (initSt [] ()) = some r := by
  refine ⟨rfl, rfl, ?_⟩
  rintro ⟨fuel, r, h⟩
  rw [buildStyles, buildAssets_emptyEntry_none] at h
  exact Option.noConfusion h

/-- C10 (as the code has it): when no vendor set and no entry has the empty
name, a full rebuild of an asset kind returns with any fuel of at least two;
it performs the reset once, before every compiler call, and no other reset;
the compiler is called on a prefix of vendor sets followed by entries, hence
at most once per configured input; the orchestrator state is left as it was. -/
theorem full_rebuild_terminates {W : Type} (env : Env W) (cfg : ProjectConfig)
    (kind : AssetKind) (fuel : Nat) (s : St W) (hn : cfg.NamesOk) :
    ∃ (r : Option GoError) (s' : St W) (built : List String),
      buildAssets env cfg kind (fuel + 2) "" s = some (r, s')
      ∧ built <+: cfg.vendorSets ++ cfg.entries
      ∧ s'.trace = s.trace ++ .resetDir kind.dir ::
          built.map (fun n => .assetBuild kind n s.app.isProduction)
      ∧ s'.app = s.app := by
  cases hreset : (env.resetDir kind.dir s.world).1 with
  | none =>
    obtain ⟨w, hw⟩ := buildAssets_full env cfg kind fuel s hn hreset
    exact ⟨_, _, _, hw, attempted_prefix _ _ _, rfl, rfl⟩
  | some err =>
    exact ⟨_, _, [], buildAssets_reset_failed env cfg kind (fuel + 1) s err hreset,
      List.nil_prefix, rfl, rfl⟩

/-- Witness for C10: the demo configuration, every call succeeding. -/
theorem full_rebuild_terminates_witness :
    ∃ (r : Option GoError) (s' : St Unit) (built : List String),
      buildAssets calmEnv demoConfig .javascripts (0 + 2) "" (initSt [] ()) = some (r, s')
      ∧ built <+: demoConfig.vendorSets ++ demoConfig.entries
      ∧ s'.trace = (initSt [] ()).trace ++ .resetDir AssetKind.javascripts.dir ::
          built.map (fun n => .assetBuild .javascripts n (initSt [] ()).app.isProduction)
      ∧ s'.app = (initSt [] ()).app :=
  full_rebuild_terminates calmEnv demoConfig .javascripts 0 (initSt [] ()) (by decide)

/-- Counterexample to C10 as stated: with a vendor set of the empty name the
per-input call is again a full rebuild.  When every call succeeds the rebuild
of the images never returns; when only the first reset succeeds it returns
after two resets, the second one made by the per-input call. -/
theorem full_rebuild_empty_vendor_resets_again :
    emptyVendorConfig.vendorSets = [""]
      ∧ (¬ ∃ fuel r, buildImages calmEnv emptyVendorConfig fuel "" (initSt [] ()) = some r)
      ∧ (buildImages countingEnv emptyVendorConfig 2 "" (initSt [] 0)).map
            (fun r => (r.1, r.2.trace))
          = some (some "reset failed", [.resetDir "public/images", .resetDir "public/images"]) := by
  refine ⟨rfl, ?_, by decide⟩
  rintro ⟨fuel, r, h⟩
  rw [buildImages, buildAssets_emptyVendor_none] at h
  exact Option.noConfusion h

/-! ## Build steps leave the supervisor alone -/

theorem buildFrame_refl {W : Type} (s : St W) : BuildFrame s s :=
  ⟨rfl, [], by simp, by simp⟩

theorem buildFrame_trans {W : Type} {a b c : St W} (h1 : BuildFrame a b) (h2 : BuildFrame b c) :
    BuildFrame a c := by
  obtain ⟨hc1, e1, ht1, he1⟩ := h1
  obtain ⟨hc2, e2, ht2, he2⟩ := h2
  refine ⟨hc2.trans hc1, e1 ++ e2, by rw [ht2, ht1, List.append_assoc], ?_⟩
  intro e he
  rcases List.mem_append.1 he with h | h
  · exact he1 e h
  · exact he2 e h

theorem callExt_buildFrame {W : Type} (e : Event) (he : e.isBuild = true)
    (f : W → Option GoError × W) (s : St W) : BuildFrame s (callExt e f s).2 :=
  ⟨rfl, [e], rfl, by simpa using he⟩

theorem assetFrame_refl {W : Type} (s : St W) : AssetFrame s s :=
  ⟨rfl, [], by simp, by simp⟩

theorem assetFrame_trans {W : Type} {a b c : St W} (h1 : AssetFrame a b)
    (h2 : AssetFrame b c) : AssetFrame a c := by
  obtain ⟨hc1, e1, ht1, he1⟩ := h1
  obtain ⟨hc2, e2, ht2, he2⟩ := h2
  refine ⟨hc2.trans hc1, e1 ++ e2, by rw [ht2, ht1, List.append_assoc], ?_⟩
  intro e he
  rcases List.mem_append.1 he with h | h
  · exact he1 e h
  · exact he2 e h

theorem assetFrame_buildFrame {W : Type} {s t : St W} (h : AssetFrame s t) : BuildFrame s t := by
  obtain ⟨h1, evs, h2, h3⟩ := h
  refine ⟨by rw [h1], evs, h2, fun e he => ?_⟩
  have := h3 e he
  cases e <;> simp_all [Event.isAsset, Event.isBuild]

theorem callExt_assetFrame {W : Type} (e : Event) (he : e.isAsset = true)
    (f : W → Option GoError × W) (s : St W) : AssetFrame s (callExt e f s).2 :=
  ⟨rfl, [e], rfl, by simpa using he⟩

theorem traverseLoop_frame {W : Type} (f : String → FStep W)
    (hf : ∀ name s r t, f name s = some (r, t) → AssetFrame s t)
    (names : List String) (s : St W) (r : Option GoError) (t : St W)
    (h : traverseLoop f names s = some (r, t)) : AssetFrame s t := by
  induction names generalizing s with
  | nil =>
    simp only [traverseLoop, Option.some.injEq, Prod.mk.injEq] at h
    rw [← h.2]
    exact assetFrame_refl s
  | cons x xs ih =>
    simp only [traverseLoop] at h
    rcases hfx : f x s with _ | ⟨_ | err, s1⟩
    · rw [hfx] at h
      exact Option.noConfusion h
    · rw [hfx] at h
      exact assetFrame_trans (hf x s none s1 hfx) (ih s1 h)
    · rw [hfx] at h
      simp only [Option.some.injEq, Prod.mk.injEq] at h
      rw [← h.2]
      exact hf x s (some err) s1 hfx

/-- An asset step, when it returns, has only made asset calls and has left the
orchestrator state as it was. -/
theorem buildAssets_assetFrame {W : Type} (env : Env W) (cfg : ProjectConfig)
    (kind : AssetKind) (fuel : Nat) (entry : String) (s : St W) (r : Option GoError) (t : St W)
    (h : buildAssets env cfg kind fuel entry s = some (r, t)) : AssetFrame s t := by
  induction fuel generalizing entry s r t with
  | zero => exact Option.noConfusion h
  | succ n ih =>
    rw [buildAssets] at h
    by_cases he : entry = ""
    · simp only [he, ↓reduceIte, callExt, buildAssetsTraverse_eq] at h
      rcases hr : (env.resetDir kind.dir s.world).1 with _ | err
      · rw [hr] at h
        simp only at h
        have h1 : AssetFrame s (callExt (.resetDir kind.dir) (env.resetDir kind.dir) s).2 :=
          callExt_assetFrame (.resetDir kind.dir) rfl (env.resetDir kind.dir) s
        exact assetFrame_trans h1 (traverseLoop_frame _ (fun name s r t => ih name s r t) _ _ _ _ h)
      · rw [hr] at h
        simp only [Option.some.injEq, Prod.mk.injEq] at h
        rw [← h.2]
        exact callExt_assetFrame (.resetDir kind.dir) rfl (env.resetDir kind.dir) s
    · simp only [he, ↓reduceIte, Option.some.injEq] at h
      have h2 := congrArg Prod.snd h
      simp only at h2
      rw [← h2]
      exact callExt_assetFrame (.assetBuild kind entry s.app.isProduction) rfl _ s

theorem buildAssets_frame {W : Type} (env : Env W) (cfg : ProjectConfig) (kind : AssetKind)
    (fuel : Nat) (entry : String) (s : St W) (r : Option GoError) (t : St W)
    (h : buildAssets env cfg kind fuel entry s = some (r, t)) : BuildFrame s t :=
  assetFrame_buildFrame (buildAssets_assetFrame env cfg kind fuel entry s r t h)

theorem binaryTest_frame {W : Type} (env : Env W) (module : String) (s : St W) :
    BuildFrame s (binaryTest env module s).2 :=
  callExt_buildFrame (.goTest (if module = "" then "." else module)) rfl _ s

theorem buildBinary_trace {W : Type} (env : Env W) (cfg : ProjectConfig) (rt : Runtime)
    (params : List String) (s : St W) :
    (buildBinary env cfg rt params s).2.app.command = s.app.command
      ∧ (buildBinary env cfg rt params s).2.trace
          = s.trace ++ [.buildBinaryCalled params,
              .goBuild (buildEnvVars rt params) (buildFlags cfg rt s.app.isProduction params)] := by
  unfold buildBinary callExt St.log
  cases h : (env.goBuild (buildEnvVars rt params)
      (buildFlags cfg rt s.app.isProduction params) s.world).1 <;> simp [h]

theorem buildBinary_buildFrame {W : Type} (env : Env W) (cfg : ProjectConfig) (rt : Runtime)
    (params : List String) (s : St W) : BuildFrame s (buildBinary env cfg rt params s).2 := by
  obtain ⟨h1, h2⟩ := buildBinary_trace env cfg rt params s
  refine ⟨h1, _, h2, ?_⟩
  intro e he
  simp only [List.mem_cons, List.mem_singleton, List.not_mem_nil, or_false] at he
  rcases he with rfl | rfl <;> rfl

theorem setCurError_buildFrame {W : Type} (s : St W) (r : Option GoError × St W)
    (h : BuildFrame s r.2) : BuildFrame s (setCurError r) := h

/-- A build task keeps the process handle and appends only build calls. -/
theorem runTask_build_frame {W : Type} (env : Env W) (cfg : ProjectConfig) (rt : Runtime)
    (fuel : Nat) (task : AppShellTask) (hb : task.isBuild = true) (s t : St W)
    (h : runTask env cfg rt fuel task s = some t) : BuildFrame s t := by
  obtain ⟨ty, m⟩ := task
  cases ty
  case kTaskBinaryRestart => simp [AppShellTask.isBuild] at hb
  case kTaskBinaryTest =>
    simp only [runTask, Option.some.injEq] at h
    rw [← h]
    exact setCurError_buildFrame s _ (binaryTest_frame env m s)
  case kTaskBuildBinary =>
    simp only [runTask, Option.some.injEq] at h
    rw [← h]
    exact setCurError_buildFrame s _ (buildBinary_buildFrame env cfg rt [] s)
  all_goals
    simp only [runTask, buildImages, buildStyles, buildJavaScripts] at h
    rcases h1 : buildAssets env cfg _ fuel m s with _ | ⟨r, u⟩
    · rw [h1] at h
      exact Option.noConfusion h
    · rw [h1] at h
      simp only [Option.map_some', Option.some.injEq] at h
      rw [← h]
      exact setCurError_buildFrame s _ (buildAssets_frame env cfg _ fuel m s r u h1)

/-! ## Traces of the supervisor and of the runner -/

theorem isPlain_of_isBuild (e : Event) (h : e.isBuild = true) : e.isPlain = true := by
  cases e <;> simp_all [Event.isBuild, Event.isPlain]

theorem dequeued_append (a b : List Event) : dequeued (a ++ b) = dequeued a ++ dequeued b := by
  simp [dequeued, List.filterMap_append]

theorem dequeued_plain (evs : List Event) (h : ∀ e ∈ evs, e.isPlain = true) :
    dequeued evs = [] := by
  induction evs with
  | nil => rfl
  | cons x xs ih =>
    have hx := h x (List.mem_cons_self _ _)
    have hxs := ih fun e he => h e (List.mem_cons_of_mem _ he)
    cases x <;> simp_all [dequeued, Event.isPlain]

theorem chain_plain (x : Event) (post : List Event) (h : ∀ e ∈ post, e.isPlain = true) :
    List.Chain StartOk x post := by
  induction post generalizing x with
  | nil => exact List.Chain.nil
  | cons y ys ih =>
    refine List.Chain.cons ?_ (ih y fun e he => h e (List.mem_cons_of_mem _ he))
    intro b hb
    have hy := h y (List.mem_cons_self _ _)
    rw [hb] at hy
    simp [Event.isPlain] at hy

theorem guarded_plain (evs : List Event) (h : ∀ e ∈ evs, e.isPlain = true) : Guarded evs := by
  cases evs with
  | nil => exact ⟨List.chain'_nil, by simp⟩
  | cons x xs =>
    refine ⟨chain_plain x xs fun e he => h e (List.mem_cons_of_mem _ he), ?_⟩
    intro b hb
    have hx := h x (List.mem_cons_self _ _)
    simp only [List.head?_cons, Option.some.injEq] at hb
    rw [hb] at hx
    simp [Event.isPlain] at hx

theorem guarded_append (a b : List Event) (ha : Guarded a) (hb : Guarded b) :
    Guarded (a ++ b) := by
  refine ⟨List.Chain'.append ha.1 hb.1 ?_, ?_⟩
  · intro x _ y hy c hc
    rw [hc] at hy
    exact absurd hy (hb.2 c)
  · intro c hc
    cases a with
    | nil => exact hb.2 c (by simpa using hc)
    | cons x xs => exact ha.2 c (by simpa using hc)

/-- What `Guarded` says: each entry of `start` in the trace found the handle
idle and directly follows a successful return of `kill`. -/
theorem guarded_spec (tr : List Event) (h : Guarded tr) (pre post : List Event) (b : Bool)
    (htr : tr = pre ++ .startCalled b :: post) :
    b = true ∧ ∃ pre0, pre = pre0 ++ [.killReturned none] := by
  subst htr
  rcases List.eq_nil_or_concat pre with hp | ⟨pre0, x, hp⟩
  · subst hp
    exact absurd (by simp) (h.2 b)
  · subst hp
    have hc := h.1
    rw [List.chain'_append] at hc
    have hx := hc.2.2 x (by simp) (.startCalled b) (by simp) b rfl
    exact ⟨hx.1, pre0, by rw [hx.2, List.concat_eq_append]⟩

theorem isPlain_of_isProcess (e : Event) (h : e.isProcess = true) : e.isPlain = true := by
  cases e <;> simp_all [Event.isProcess, Event.isPlain]

theorem isPlain_of_isAsset (e : Event) (h : e.isAsset = true) : e.isPlain = true := by
  cases e <;> simp_all [Event.isAsset, Event.isPlain]

/-- The trace of a `kill` that returns: entry, signals and timer, return.  A
return with nil leaves the handle idle; the handle is cleared or kept. -/
theorem kill_trace {W : Type} (env : Env W) (cfg : ProjectConfig) (rt : Runtime) (s : St W)
    (r : Option GoError) (t : St W) (h : kill env cfg rt s = some (r, t)) :
    ∃ mid, t.trace = s.trace ++ (.killCalled :: mid ++ [.killReturned r])
      ∧ (∀ e ∈ mid, e.isProcess = true)
      ∧ (r = none → idle env t = true)
      ∧ (t.app.command = none ∨ t.app.command = s.app.command) := by
  rcases hc : s.app.command with _ | cmd
  · simp only [kill, St.log, hc, Option.some.injEq, Prod.mk.injEq] at h
    obtain ⟨rfl, rfl⟩ := h
    exact ⟨[], by simp, by simp, by simp [idle, hc], Or.inr (by simp [hc])⟩
  · by_cases hl : cmd.launched = true
    swap
    · have hl2 : cmd.launched = false := by simpa using hl
      simp [kill, processStateOf, St.log, hc, hl2] at h
    by_cases hg : env.processState cmd s.world = none ∨ env.processState cmd s.world = some false
    · by_cases hw : rt.GOOS = "windows"
      · rcases hk : (env.processKill cmd s.world).1 with _ | err
        · by_cases hgr : cfg.isGraceful = true
          · simp only [kill, processStateOf, St.log, callExt, hc, hl, hg, hw, hk, hgr, if_true,
              Bool.true_eq_false, if_false, Bool.not_true, Option.some.injEq,
              Prod.mk.injEq] at h
            obtain ⟨rfl, rfl⟩ := h
            exact ⟨[.processKill], by simp, by simp [Event.isProcess], by simp [idle],
              Or.inl rfl⟩
          · have hgr2 : cfg.isGraceful = false := by simpa using hgr
            simp only [kill, processStateOf, St.log, callExt, hc, hl, hg, hw, hk, hgr2, if_true,
              Bool.true_eq_false, if_false, Bool.not_false, Option.some.injEq,
              Prod.mk.injEq] at h
            obtain ⟨rfl, rfl⟩ := h
            exact ⟨[.processKill, .elapsed 3000, .processKill], by simp,
              by simp [Event.isProcess], by simp [idle], Or.inl rfl⟩
        · simp only [kill, processStateOf, St.log, callExt, hc, hl, hg, hw, hk, if_true,
            Bool.true_eq_false, if_false, Option.some.injEq, Prod.mk.injEq] at h
          obtain ⟨rfl, rfl⟩ := h
          exact ⟨[.processKill], by simp, by simp [Event.isProcess], by simp,
            Or.inr (by simp [hc])⟩
      · rcases hk : (env.processSignal cmd s.world).1 with _ | err
        · by_cases hgr : cfg.isGraceful = true
          · simp only [kill, processStateOf, St.log, callExt, hc, hl, hg, hw, hk, hgr, if_true,
              Bool.true_eq_false, if_false, Bool.not_true, Option.some.injEq,
              Prod.mk.injEq] at h
            obtain ⟨rfl, rfl⟩ := h
            exact ⟨[.processSignal], by simp, by simp [Event.isProcess], by simp [idle],
              Or.inl rfl⟩
          · have hgr2 : cfg.isGraceful = false := by simpa using hgr
            simp only [kill, processStateOf, St.log, callExt, hc, hl, hg, hw, hk, hgr2, if_true,
              Bool.true_eq_false, if_false, Bool.not_false, Option.some.injEq,
              Prod.mk.injEq] at h
            obtain ⟨rfl, rfl⟩ := h
            exact ⟨[.processSignal, .elapsed 3000, .processKill], by simp,
              by simp [Event.isProcess], by simp [idle], Or.inl rfl⟩
        · simp only [kill, processStateOf, St.log, callExt, hc, hl, hg, hw, hk, if_true,
            Bool.true_eq_false, if_false, Option.some.injEq, Prod.mk.injEq] at h
          obtain ⟨rfl, rfl⟩ := h
          exact ⟨[.processSignal], by simp, by simp [Event.isProcess], by simp,
            Or.inr (by simp [hc])⟩
    · have hex : env.processState cmd s.world = some true := by
        rcases hps : env.processState cmd s.world with _ | b
        · exact absurd (Or.inl hps) hg
        · cases b
          · exact absurd (Or.inr hps) hg
          · rfl
      simp [kill, processStateOf, St.log, hc, hl, hex] at h
      obtain ⟨rfl, rfl⟩ := h
      exact ⟨[], by simp, by simp, by simp [idle, hc, processStateOf, hl, hex],
        Or.inr (by simp [hc])⟩

/-- A `kill` on a handle that is nil or launched returns, and leaves such a
handle. -/
theorem kill_returns {W : Type} (env : Env W) (cfg : ProjectConfig) (rt : Runtime) (s : St W)
    (hs : HandleOk s) : ∃ r t, kill env cfg rt s = some (r, t) ∧ HandleOk t := by
  have hsome : (kill env cfg rt s).isSome = true := by
    rcases hc : s.app.command with _ | cmd
    · simp [kill, St.log, hc]
    · have hl : cmd.launched = true := hs cmd hc
      by_cases hg : env.processState cmd s.world = none
          ∨ env.processState cmd s.world = some false
      · by_cases hw : rt.GOOS = "windows"
        · rcases hk : (env.processKill cmd s.world).1 with _ | err <;>
            simp [kill, processStateOf, St.log, callExt, hc, hl, hg, hw, hk]
        · rcases hk : (env.processSignal cmd s.world).1 with _ | err <;>
            simp [kill, processStateOf, St.log, callExt, hc, hl, hg, hw, hk]
      · simp [kill, processStateOf, St.log, hc, hl, hg]
  have key : ∃ r t, kill env cfg rt s = some (r, t) := by
    obtain ⟨x, hx⟩ := Option.isSome_iff_exists.1 hsome
    exact ⟨x.1, x.2, hx⟩
  obtain ⟨r, t, h⟩ := key
  refine ⟨r, t, h, ?_⟩
  obtain ⟨_, _, _, _, hcmd⟩ := kill_trace env cfg rt s r t h
  intro cmd hcmd2
  rcases hcmd with h1 | h1
  · rw [h1] at hcmd2
    exact Option.noConfusion hcmd2
  · exact hs cmd (by rw [← h1]; exact hcmd2)

/-- The trace of `start`: entry with the idle flag, then the launch and the
settle delay. -/
theorem start_trace {W : Type} (env : Env W) (s : St W) :
    ∃ post, (start env s).2.trace = s.trace ++ (.startCalled (idle env s) :: post)
      ∧ ∀ e ∈ post, e.isProcess = true := by
  rcases hk : (env.commandStart ⟨"./" ++ s.app.binName, s.app.args, false⟩ s.world).1
    with _ | err
  · exact ⟨[.commandStart ⟨"./" ++ s.app.binName, s.app.args, false⟩, .elapsed 500],
      by simp [start, St.log, callExt, hk], by simp [Event.isProcess]⟩
  · exact ⟨[.commandStart ⟨"./" ++ s.app.binName, s.app.args, false⟩],
      by simp [start, St.log, callExt, hk], by simp [Event.isProcess]⟩

/-- When `Start()` does not fail, `start` leaves a launched handle. -/
theorem start_handleOk {W : Type} (env : Env W)
    (hstart : ∀ cmd w, (env.commandStart cmd w).1 = none) (s : St W) :
    HandleOk (start env s).2 := by
  intro cmd hcmd
  simp only [start, St.log, callExt, hstart, Option.some.injEq] at hcmd
  rw [← hcmd]

/-- The events of one call of an asset step that returns. -/
theorem buildAssets_events {W : Type} (env : Env W) (cfg : ProjectConfig) (kind : AssetKind)
    (fuel : Nat) (entry : String) (s : St W) (r : Option GoError) (t : St W)
    (h : buildAssets env cfg kind fuel entry s = some (r, t)) :
    ∃ evs, t.trace = s.trace ++ evs ∧ AssetEvents kind entry evs := by
  cases fuel with
  | zero => exact Option.noConfusion h
  | succ n =>
    rw [buildAssets] at h
    by_cases he : entry = ""
    · simp only [he, ↓reduceIte, callExt, buildAssetsTraverse_eq] at h
      rcases hr : (env.resetDir kind.dir s.world).1 with _ | err
      · rw [hr] at h
        simp only at h
        obtain ⟨_, rest, h1, h2⟩ := traverseLoop_frame _
          (fun name s r t => buildAssets_assetFrame env cfg kind n name s r t) _ _ _ _ h
        refine ⟨.resetDir kind.dir :: rest, ?_, ?_⟩
        · rw [h1]
          simp
        · simp only [AssetEvents, he, ↓reduceIte]
          exact ⟨rest, rfl, h2⟩
      · rw [hr] at h
        simp only [Option.some.injEq, Prod.mk.injEq] at h
        refine ⟨[.resetDir kind.dir], by rw [← h.2], ?_⟩
        simp only [AssetEvents, he, ↓reduceIte]
        exact ⟨[], rfl, by simp⟩
    · simp only [he, ↓reduceIte, Option.some.injEq] at h
      have h2 := congrArg Prod.snd h
      simp only at h2
      refine ⟨[.assetBuild kind entry s.app.isProduction], by rw [← h2]; rfl, ?_⟩
      simp only [AssetEvents, he, ↓reduceIte]
      exact ⟨_, rfl⟩

theorem assetEvents_plain (kind : AssetKind) (entry : String) (evs : List Event)
    (h : AssetEvents kind entry evs) : ∀ e ∈ evs, e.isPlain = true := by
  unfold AssetEvents at h
  split_ifs at h
  · obtain ⟨rest, rfl, h2⟩ := h
    intro e he
    rcases List.mem_cons.1 he with rfl | he
    · rfl
    · exact isPlain_of_isAsset e (h2 e he)
  · obtain ⟨p, rfl⟩ := h
    intro e he
    rw [List.mem_singleton.1 he]
    rfl

theorem dequeued_nodeq (evs : List Event) (h : ∀ e ∈ evs, ∀ task, e ≠ .dequeue task) :
    dequeued evs = [] := by
  induction evs with
  | nil => rfl
  | cons x xs ih =>
    have hx := h x (List.mem_cons_self _ _)
    have hxs := ih fun e he => h e (List.mem_cons_of_mem _ he)
    cases x <;> simp_all [dequeued]

/-- The events of a handler hold no dequeue marker. -/
theorem handlerEvents_dequeued (task : AppShellTask) (evs : List Event)
    (h : HandlerEvents task evs) : dequeued evs = [] := by
  obtain ⟨ty, m⟩ := task
  cases ty
  case kTaskBinaryTest =>
    simp only [HandlerEvents] at h
    rw [h]
    rfl
  case kTaskBuildBinary =>
    obtain ⟨envv, flags, rfl⟩ := h
    rfl
  case kTaskBinaryRestart =>
    obtain ⟨body, rfl, hb⟩ := h
    rcases hb with rfl | ⟨mid, r, rest, rfl, hmid, hrest⟩
    · rfl
    · apply dequeued_nodeq
      intro e he task hd
      rw [hd] at he
      rcases hrest with rfl | ⟨b, post, rfl, hpost⟩
      · simp at he
        have := hmid _ he
        simp [Event.isProcess] at this
      · simp at he
        rcases he with he | he
        · have := hmid _ he
          simp [Event.isProcess] at this
        · have := hpost _ he
          simp [Event.isProcess] at this
  all_goals exact dequeued_plain evs (assetEvents_plain _ m evs h)

/-- The dequeue markers of a served trace are the tasks, in order. -/
theorem served_dequeued (q : List AppShellTask) (evs : List Event) (h : Served q evs) :
    dequeued evs = q := by
  induction h with
  | nil => rfl
  | cons hh _ ih =>
    rw [show ∀ (task : AppShellTask) (l : List Event),
        dequeued (.dequeue task :: l) = task :: dequeued l from fun _ _ => rfl,
      dequeued_append, handlerEvents_dequeued _ _ hh, ih]
    rfl

theorem served_append (a b : List AppShellTask) (ea eb : List Event) (ha : Served a ea)
    (hb : Served b eb) : Served (a ++ b) (ea ++ eb) := by
  induction ha with
  | nil => exact hb
  | cons hh _ ih =>
    rw [List.cons_append, List.cons_append, List.append_assoc]
    exact Served.cons hh ih

/-- The events one task appends are those of its handler, run once, and every
entry of `start` among them is guarded. -/
theorem runTask_trace {W : Type} (env : Env W) (cfg : ProjectConfig) (rt : Runtime)
    (fuel : Nat) (task : AppShellTask) (s t : St W)
    (h : runTask env cfg rt fuel task s = some t) :
    ∃ evs, t.trace = s.trace ++ evs ∧ HandlerEvents task evs ∧ Guarded evs := by
  obtain ⟨ty, m⟩ := task
  cases ty
  case kTaskBinaryTest =>
    simp only [runTask, Option.some.injEq] at h
    exact ⟨[.goTest (if m = "" then "." else m)], by rw [← h]; rfl, rfl,
      guarded_plain _ (by simp [Event.isPlain])⟩
  case kTaskBuildBinary =>
    simp only [runTask, Option.some.injEq] at h
    exact ⟨_, by rw [← h]; exact (buildBinary_trace env cfg rt [] s).2, ⟨_, _, rfl⟩,
      guarded_plain _ (by simp [Event.isPlain])⟩
  case kTaskBinaryRestart =>
    simp only [runTask] at h
    by_cases hce : s.app.curError = none
    · simp only [hce, ↓reduceIte] at h
      rcases hk : kill env cfg rt s with _ | ⟨_ | err, s1⟩
      · rw [hk] at h
        exact Option.noConfusion h
      · rw [hk] at h
        simp only [Option.map_some', Option.some.injEq] at h
        obtain ⟨mid, hk1, hk2, hk3, _⟩ := kill_trace env cfg rt s none s1 hk
        obtain ⟨post, hs1, hs2⟩ := start_trace env s1
        rw [hk3 rfl] at hs1
        have hpa : ∀ e ∈ Event.killCalled :: mid ++ [Event.killReturned none],
            e.isPlain = true := by
          intro e he
          simp only [List.cons_append, List.mem_cons, List.mem_append, List.mem_singleton,
            List.not_mem_nil, or_false] at he
          rcases he with rfl | he | rfl
          · rfl
          · exact isPlain_of_isProcess e (hk2 e he)
          · rfl
        have hpp : ∀ e ∈ post, e.isPlain = true :=
          fun e he => isPlain_of_isProcess e (hs2 e he)
        have hbody : Guarded ((Event.killCalled :: mid ++ [Event.killReturned none])
            ++ (Event.startCalled true :: post)) := by
          refine ⟨List.Chain'.append (guarded_plain _ hpa).1 (chain_plain _ post hpp) ?_, ?_⟩
          · intro x hx y hy b hyb
            have hl : (Event.killCalled :: mid ++ [Event.killReturned none]).getLast?
                = some (.killReturned none) := by
              rw [List.getLast?_append]
              rfl
            rw [hl, Option.mem_def, Option.some.injEq] at hx
            simp only [List.head?_cons, Option.mem_def, Option.some.injEq] at hy
            rw [← hy] at hyb
            simp only [Event.startCalled.injEq] at hyb
            exact ⟨hyb.symm, hx.symm⟩
          · intro b hb
            simp at hb
        refine ⟨((Event.killCalled :: mid ++ [Event.killReturned none])
            ++ (Event.startCalled true :: post)) ++ [.waiting], ?_, ⟨_, rfl, ?_⟩,
          guarded_append _ _ hbody (guarded_plain _ (by simp [Event.isPlain]))⟩
        · rw [← h]
          simp only [St.log, hs1, hk1, List.append_assoc]
        · exact Or.inr ⟨mid, none, _, by simp, hk2, Or.inr ⟨true, post, rfl, hs2⟩⟩
      · rw [hk] at h
        simp only [Option.map_some', Option.some.injEq] at h
        obtain ⟨mid, hk1, hk2, _, _⟩ := kill_trace env cfg rt s (some err) s1 hk
        have hp : ∀ e ∈ (Event.killCalled :: mid ++ [Event.killReturned (some err)])
            ++ [Event.waiting], e.isPlain = true := by
          intro e he
          simp only [List.cons_append, List.mem_cons, List.mem_append, List.mem_singleton,
            List.not_mem_nil, or_false] at he
          rcases he with rfl | (he | rfl) | rfl
          · rfl
          · exact isPlain_of_isProcess e (hk2 e he)
          · rfl
          · rfl
        refine ⟨_, ?_, ⟨_, rfl, ?_⟩, guarded_plain _ hp⟩
        · rw [← h]
          simp only [St.log, hk1, List.append_assoc]
        · exact Or.inr ⟨mid, some err, [], rfl, hk2, Or.inl rfl⟩
    · simp only [hce, ↓reduceIte, Option.map_some', Option.some.injEq] at h
      exact ⟨[.warnErrors, .waiting], by rw [← h]; simp [St.log],
        ⟨[.warnErrors], rfl, Or.inl rfl⟩, guarded_plain _ (by simp [Event.isPlain])⟩
  all_goals
    simp only [runTask, buildImages, buildStyles, buildJavaScripts] at h
    rcases h1 : buildAssets env cfg _ fuel m s with _ | ⟨r, u⟩
    · rw [h1] at h
      exact Option.noConfusion h
    · rw [h1] at h
      simp only [Option.map_some', Option.some.injEq] at h
      obtain ⟨evs, he1, he2⟩ := buildAssets_events env cfg _ fuel m s r u h1
      exact ⟨evs, by rw [← h]; exact he1, he2,
        guarded_plain evs (assetEvents_plain _ _ _ he2)⟩

/-- The events a run of the runner appends: for each task of the queue, in
order, its dequeue marker and the events of its handler; every entry of
`start` is guarded. -/
theorem startRunner_trace {W : Type} (env : Env W) (cfg : ProjectConfig) (rt : Runtime)
    (fuel : Nat) (q : List AppShellTask) (s t : St W)
    (h : startRunner env cfg rt fuel q s = some t) :
    ∃ evs, t.trace = s.trace ++ evs ∧ Served q evs ∧ Guarded evs := by
  induction q generalizing s with
  | nil =>
    simp only [startRunner, Option.some.injEq] at h
    exact ⟨[], by rw [← h]; simp, Served.nil, guarded_plain [] (by simp)⟩
  | cons task rest ih =>
    simp only [startRunner] at h
    rcases h1 : runTask env cfg rt fuel task (s.log (.dequeue task)) with _ | s1
    · rw [h1] at h
      exact Option.noConfusion h
    · rw [h1] at h
      obtain ⟨e1, ht1, hd1, hg1⟩ := runTask_trace env cfg rt fuel task _ s1 h1
      obtain ⟨e2, ht2, hd2, hg2⟩ := ih s1 h
      refine ⟨.dequeue task :: (e1 ++ e2), ?_, Served.cons hd1 hd2, ?_⟩
      · rw [ht2, ht1]
        simp [St.log, List.append_assoc]
      · exact guarded_append [.dequeue task] (e1 ++ e2) ⟨List.chain'_singleton _, by simp⟩
          (guarded_append _ _ hg1 hg2)

theorem startRunner_append {W : Type} (env : Env W) (cfg : ProjectConfig) (rt : Runtime)
    (fuel : Nat) (a b : List AppShellTask) (s : St W) :
    startRunner env cfg rt fuel (a ++ b) s
      = (startRunner env cfg rt fuel a s).bind (startRunner env cfg rt fuel b) := by
  induction a generalizing s with
  | nil => simp [startRunner]
  | cons task rest ih =>
    simp only [List.cons_append, startRunner]
    rcases runTask env cfg rt fuel task (s.log (.dequeue task)) with _ | s1
    · rfl
    · exact ih s1

theorem foldl_send (ch tasks : List AppShellTask) :
    tasks.foldl (fun ch task => ch ++ [task]) ch = ch ++ tasks := by
  induction tasks generalizing ch with
  | nil => simp
  | cons task rest ih => simp [ih]

theorem executeTask_eq (ch tasks : List AppShellTask) :
    executeTask ch tasks = ch ++ tasks ++ [⟨.kTaskBinaryRestart, ""⟩] := by
  simp [executeTask, foldl_send]

/-- With non-empty asset names and fuel two, every asset step returns. -/
theorem buildAssets_returns {W : Type} (env : Env W) (cfg : ProjectConfig) (kind : AssetKind)
    (hn : cfg.NamesOk) (fuel : Nat) (hf : 2 ≤ fuel) (entry : String) (s : St W) :
    ∃ r, buildAssets env cfg kind fuel entry s = some r := by
  obtain ⟨n, rfl⟩ : ∃ n, fuel = n + 2 := ⟨fuel - 2, by omega⟩
  by_cases he : entry = ""
  · subst he
    rcases hreset : (env.resetDir kind.dir s.world).1 with _ | err
    · obtain ⟨w, hw⟩ := buildAssets_full env cfg kind n s hn hreset
      exact ⟨_, hw⟩
    · exact ⟨_, buildAssets_reset_failed env cfg kind (n + 1) s err hreset⟩
  · exact ⟨_, buildAssets_entry env cfg kind (n + 1) entry he s⟩

/-- With non-empty asset names, fuel two and a `Start()` that does not fail,
every handler returns from a state whose handle is nil or launched, and leaves
such a state. -/
theorem runTask_returns {W : Type} (env : Env W) (cfg : ProjectConfig) (rt : Runtime)
    (hn : cfg.NamesOk) (fuel : Nat) (hf : 2 ≤ fuel)
    (hstart : ∀ cmd w, (env.commandStart cmd w).1 = none)
    (task : AppShellTask) (s : St W) (hs : HandleOk s) :
    ∃ t, runTask env cfg rt fuel task s = some t ∧ HandleOk t := by
  by_cases hb : task.isBuild = true
  · have hret : ∃ t, runTask env cfg rt fuel task s = some t := by
      obtain ⟨ty, m⟩ := task
      cases ty
      case kTaskBinaryTest => exact ⟨_, rfl⟩
      case kTaskBuildBinary => exact ⟨_, rfl⟩
      case kTaskBinaryRestart => simp [AppShellTask.isBuild] at hb
      case kTaskBuildImages =>
        obtain ⟨r, hr⟩ := buildAssets_returns env cfg .images hn fuel hf m s
        exact ⟨setCurError r, by simp only [runTask, buildImages, hr, Option.map_some']⟩
      case kTaskBuildStyles =>
        obtain ⟨r, hr⟩ := buildAssets_returns env cfg .styles hn fuel hf m s
        exact ⟨setCurError r, by simp only [runTask, buildStyles, hr, Option.map_some']⟩
      case kTaskBuildJavaScripts =>
        obtain ⟨r, hr⟩ := buildAssets_returns env cfg .javascripts hn fuel hf m s
        exact ⟨setCurError r, by simp only [runTask, buildJavaScripts, hr, Option.map_some']⟩
    obtain ⟨t, ht⟩ := hret
    refine ⟨t, ht, ?_⟩
    have hc := (runTask_build_frame env cfg rt fuel task hb s t ht).1
    intro cmd hcmd
    exact hs cmd (by rw [← hc]; exact hcmd)
  · have hty : task.taskType = .kTaskBinaryRestart := by
      obtain ⟨ty, m⟩ := task
      cases ty <;> simp_all [AppShellTask.isBuild]
    simp only [runTask, hty]
    by_cases hce : s.app.curError = none
    · simp only [hce, ↓reduceIte]
      obtain ⟨r, s1, hk, hs1⟩ := kill_returns env cfg rt s hs
      rw [hk]
      cases r with
      | none => exact ⟨_, rfl, start_handleOk env hstart s1⟩
      | some err => exact ⟨_, rfl, hs1⟩
    · simp only [hce, ↓reduceIte]
      exact ⟨_, rfl, hs⟩

/-- With non-empty asset names, fuel two and a `Start()` that does not fail,
the runner drains any queue from a state whose handle is nil or launched. -/
theorem startRunner_returns {W : Type} (env : Env W) (cfg : ProjectConfig) (rt : Runtime)
    (hn : cfg.NamesOk) (fuel : Nat) (hf : 2 ≤ fuel)
    (hstart : ∀ cmd w, (env.commandStart cmd w).1 = none)
    (q : List AppShellTask) (s : St W) (hs : HandleOk s) :
    ∃ t, startRunner env cfg rt fuel q s = some t := by
  induction q generalizing s with
  | nil => exact ⟨s, rfl⟩
  | cons task rest ih =>
    obtain ⟨s1, h1, hs1⟩ := runTask_returns env cfg rt hn fuel hf hstart task
      (s.log (.dequeue task)) hs
    obtain ⟨t, h2⟩ := ih s1 hs1
    exact ⟨t, by simp [startRunner, h1, h2]⟩

/-- A batch of build tasks leaves the process handle as it was. -/
theorem startRunner_build_command {W : Type} (env : Env W) (cfg : ProjectConfig)
    (rt : Runtime) (fuel : Nat) (ts : List AppShellTask) (hts : ∀ task ∈ ts, task.isBuild = true)
    (s t : St W) (h : startRunner env cfg rt fuel ts s = some t) :
    t.app.command = s.app.command := by
  induction ts generalizing s with
  | nil =>
    simp only [startRunner, Option.some.injEq] at h
    rw [← h]
  | cons task rest ih =>
    simp only [startRunner] at h
    rcases h1 : runTask env cfg rt fuel task (s.log (.dequeue task)) with _ | s1
    · rw [h1] at h
      exact Option.noConfusion h
    · rw [h1] at h
      have hf := runTask_build_frame env cfg rt fuel task (hts task (List.mem_cons_self _ _))
        _ s1 h1
      rw [ih (fun x hx => hts x (List.mem_cons_of_mem _ hx)) s1 h, hf.1]
      rfl

/-! ## The runner: restart gate, FIFO order, supervisor invariant -/

/-- The restart gate reads `curError` only: when it is non-nil after a batch
of build tasks, the restart task that `executeTask` appends logs its two
messages and calls neither `kill` nor `start`, and the process handle is the
one from before the batch. -/
theorem restart_skipped_on_error {W : Type} (env : Env W) (cfg : ProjectConfig)
    (rt : Runtime) (fuel : Nat) (ts : List AppShellTask) (s s1 : St W)
    (hts : ∀ task ∈ ts, task.isBuild = true)
    (hrun : startRunner env cfg rt fuel ts s = some s1)
    (herr : s1.app.curError ≠ none) :
    ∃ s2, startRunner env cfg rt fuel (executeTask [] ts) s = some s2
      ∧ s2.trace = s1.trace ++ [.dequeue restartTask, .warnErrors, .waiting]
      ∧ s2.app = s1.app
      ∧ s2.world = s1.world
      ∧ s2.app.command = s.app.command := by
  refine ⟨{ s1 with trace := s1.trace ++ [.dequeue restartTask, .warnErrors, .waiting] },
    ?_, rfl, rfl, rfl, startRunner_build_command env cfg rt fuel ts hts s s1 hrun⟩
  rw [executeTask_eq, List.nil_append, startRunner_append, hrun]
  simp [startRunner, runTask, restartTask, St.log, herr]

/-- C1, the code at the failing input: in the batch of `Run` the first build
step, the images, returns an error and the later steps succeed; every step
overwrites `curError`, so the restart task finds it nil, calls `kill` and
`start`, and the process handle changes from nil to a new process. -/
theorem restart_after_failed_images :
    (∀ task ∈ runBatch, task.isBuild = true)
      ∧ (buildImages (pickyEnv ["public/images"] [] []) smallConfig 2 ""
            ((initSt [] ()).log (.dequeue ⟨.kTaskBuildImages, ""⟩))).map Prod.fst
          = some (some "reset failed: public/images")
      ∧ (initSt [] ()).app.command = none
      ∧ Run (pickyEnv ["public/images"] [] []) smallConfig linuxHost 2 (initSt [] ())
          = startRunner (pickyEnv ["public/images"] [] []) smallConfig linuxHost 2
              (executeTask [] runBatch) (initSt [] ())
      ∧ (Run (pickyEnv ["public/images"] [] []) smallConfig linuxHost 2 (initSt [] ())).map
            (fun t => (t.trace, t.app.command))
          = some ([.dequeue ⟨.kTaskBuildImages, ""⟩, .resetDir "public/images",
             .dequeue ⟨.kTaskBuildStyles, ""⟩, .resetDir "public/stylesheets",
             .assetBuild .styles "v1" false,
             .dequeue ⟨.kTaskBuildJavaScripts, ""⟩, .resetDir "public/javascripts",
             .assetBuild .javascripts "v1" false,
             .dequeue ⟨.kTaskBuildBinary, ""⟩, .buildBinaryCalled [],
             .goBuild ["PATH=", "GOOS=linux", "GOARCH=amd64", "GOPATH="]
               ["build", "-o", "demo-1.2.0.linux.amd64"],
             .dequeue restartTask, .killCalled, .killReturned none, .startCalled true,
             .commandStart ⟨"./demo-1.2.0.linux.amd64", [], false⟩, .elapsed 500, .waiting],
            some ⟨"./demo-1.2.0.linux.amd64", [], true⟩) := by
  refine ⟨by decide, by decide, rfl, rfl, by decide⟩

/-- C2: `executeTask` sends the given tasks in their order and then one
restart task.  When the runner has drained the queue, the trace it appended
is, for each task of the queue in that order, the dequeue marker of the task
followed by the events of the handler of that task, run once: nothing is
skipped, duplicated or reordered.  The runner does drain the queue when no
asset name is empty, `Start()` does not fail and the handle it starts from is
nil or launched. -/
theorem runner_fifo {W : Type} (env : Env W) (cfg : ProjectConfig) (rt : Runtime)
    (fuel : Nat) (ch ts : List AppShellTask) (s : St W) :
    executeTask ch ts = ch ++ ts ++ [⟨.kTaskBinaryRestart, ""⟩]
      ∧ (∀ t, startRunner env cfg rt fuel (executeTask ch ts) s = some t →
          ∃ evs, t.trace = s.trace ++ evs
            ∧ Served (ch ++ ts ++ [⟨.kTaskBinaryRestart, ""⟩]) evs
            ∧ dequeued evs = ch ++ ts ++ [⟨.kTaskBinaryRestart, ""⟩])
      ∧ (cfg.NamesOk → 2 ≤ fuel → (∀ cmd w, (env.commandStart cmd w).1 = none) →
          HandleOk s → ∃ t, startRunner env cfg rt fuel (executeTask ch ts) s = some t) := by
  refine ⟨executeTask_eq ch ts, ?_,
    fun hn hf hstart hs => startRunner_returns env cfg rt hn fuel hf hstart _ s hs⟩
  intro t ht
  obtain ⟨evs, h1, h2, _⟩ := startRunner_trace env cfg rt fuel _ s t ht
  rw [executeTask_eq] at h2
  exact ⟨evs, h1, h2, served_dequeued _ _ h2⟩

/-- Witness for C2: the batch of `Run` with one vendor set, every call
succeeding; the trace shows each handler, in the order of the queue. -/
theorem runner_fifo_witness :
    ∃ t, startRunner calmEnv smallConfig linuxHost 2 (executeTask [] runBatch) (initSt [] ())
          = some t
      ∧ t.trace
          = [.dequeue ⟨.kTaskBuildImages, ""⟩, .resetDir "public/images",
             .assetBuild .images "v1" false,
             .dequeue ⟨.kTaskBuildStyles, ""⟩, .resetDir "public/stylesheets",
             .assetBuild .styles "v1" false,
             .dequeue ⟨.kTaskBuildJavaScripts, ""⟩, .resetDir "public/javascripts",
             .assetBuild .javascripts "v1" false,
             .dequeue ⟨.kTaskBuildBinary, ""⟩, .buildBinaryCalled [],
             .goBuild ["PATH=", "GOOS=linux", "GOARCH=amd64", "GOPATH="]
               ["build", "-o", "demo-1.2.0.linux.amd64"],
             .dequeue ⟨.kTaskBinaryRestart, ""⟩, .killCalled, .killReturned none,
             .startCalled true, .commandStart ⟨"./demo-1.2.0.linux.amd64", [], false⟩,
             .elapsed 500, .waiting]
      ∧ ∃ evs, t.trace = (initSt [] ()).trace ++ evs
          ∧ Served ([] ++ runBatch ++ [⟨.kTaskBinaryRestart, ""⟩]) evs
          ∧ dequeued evs = [] ++ runBatch ++ [⟨.kTaskBinaryRestart, ""⟩] :=
  ⟨_, rfl, rfl,
    (runner_fifo calmEnv smallConfig linuxHost 2 [] runBatch (initSt [] ())).2.1 _ rfl⟩

/-- C8: in every run of the runner from the initial state, each entry of
`start` found the process handle nil or referring to an exited process and
directly follows a return of `kill` with nil; no entry of `start` follows a
return of `kill` with an error.  Such runs exist: the runner drains every
queue when no asset name is empty and `Start()` does not fail. -/
theorem start_only_after_kill {W : Type} (env : Env W) (cfg : ProjectConfig) (rt : Runtime)
    (fuel : Nat) (args : List String) (w : W) (q : List AppShellTask) :
    (∀ t, startRunner env cfg rt fuel q (initSt args w) = some t →
        (∀ pre post b, t.trace = pre ++ .startCalled b :: post →
          b = true ∧ ∃ pre0, pre = pre0 ++ [.killReturned none])
        ∧ ∀ pre post err b,
            t.trace ≠ pre ++ .killReturned (some err) :: .startCalled b :: post)
      ∧ (cfg.NamesOk → 2 ≤ fuel → (∀ cmd w, (env.commandStart cmd w).1 = none) →
          ∃ t, startRunner env cfg rt fuel q (initSt args w) = some t) := by
  refine ⟨?_, fun hn hf hstart => startRunner_returns env cfg rt hn fuel hf hstart q _
    (fun cmd hcmd => Option.noConfusion hcmd)⟩
  intro t ht
  obtain ⟨evs, h1, _, hg⟩ := startRunner_trace env cfg rt fuel q _ t ht
  have hgt : Guarded t.trace := by
    rw [h1]
    simpa [initSt] using hg
  refine ⟨fun pre post b h => guarded_spec t.trace hgt pre post b h, ?_⟩
  intro pre post err b h
  have h2 : t.trace = (pre ++ [.killReturned (some err)]) ++ .startCalled b :: post := by
    rw [h]
    simp
  obtain ⟨_, pre0, hp⟩ := guarded_spec t.trace hgt _ post b h2
  have := List.append_inj_right' hp rfl
  simp at this

/-- Witness for C8: two cycles of a binary build; the second restart stops the
process of the first and starts the new one. -/
theorem start_only_after_kill_witness :
    ∃ t, startRunner calmEnv demoConfig linuxHost 2
          (executeTask (executeTask [] [⟨.kTaskBuildBinary, ""⟩]) [⟨.kTaskBuildBinary, ""⟩])
          (initSt [] ()) = some t
      ∧ t.trace.count (.startCalled true) = 2
      ∧ (∀ pre post b, t.trace = pre ++ .startCalled b :: post →
          b = true ∧ ∃ pre0, pre = pre0 ++ [.killReturned none]) :=
  ⟨_, rfl, by decide,
    ((start_only_after_kill calmEnv demoConfig linuxHost 2 [] ()
      (executeTask (executeTask [] [⟨.kTaskBuildBinary, ""⟩]) [⟨.kTaskBuildBinary, ""⟩])).1
      _ rfl).1⟩

/-! ## The distribution pass -/

theorem binaryCalls_append (a b : List Event) :
    binaryCalls (a ++ b) = binaryCalls a ++ binaryCalls b := by
  simp [binaryCalls, List.filterMap_append]

theorem uniqueTargets_sublist (l : List (String × String)) : (uniqueTargets l).Sublist l := by
  induction l with
  | nil => exact List.Sublist.slnil
  | cons x xs ih => exact ((List.filter_sublist _).trans ih).cons₂ x

theorem uniqueTargets_keys_nodup (l : List (String × String)) :
    ((uniqueTargets l).map targetKey).Nodup := by
  induction l with
  | nil => exact List.nodup_nil
  | cons x xs ih =>
    simp only [uniqueTargets, List.map_cons, List.nodup_cons]
    refine ⟨?_, ((List.filter_sublist _).map targetKey).nodup ih⟩
    intro h
    obtain ⟨u, hu, hk⟩ := List.mem_map.1 h
    have := (List.mem_filter.1 hu).2
    simp [hk] at this

theorem uniqueTargets_keys (l : List (String × String)) (k : String) :
    k ∈ (uniqueTargets l).map targetKey ↔ k ∈ l.map targetKey := by
  induction l with
  | nil => simp [uniqueTargets]
  | cons x xs ih =>
    simp only [uniqueTargets, List.map_cons, List.mem_cons]
    by_cases hk : k = targetKey x
    · simp [hk]
    · rw [← ih]
      simp only [hk, false_or, List.mem_map, List.mem_filter]
      constructor
      · rintro ⟨u, ⟨hu, _⟩, rfl⟩
        exact ⟨u, hu, rfl⟩
      · rintro ⟨u, hu, rfl⟩
        exact ⟨u, ⟨hu, by simpa using hk⟩, rfl⟩

/-- The loop of `Dist` calls `buildBinary` on the first occurrences of the
keys not yet visited, in order. -/
theorem distLoop_calls {W : Type} (env : Env W) (cfg : ProjectConfig) (rt : Runtime)
    (targets : List (String × String)) (visited : List String) (err : Option GoError)
    (s : St W) :
    binaryCalls (distLoop env cfg rt targets visited err s).2.trace
      = binaryCalls s.trace
        ++ ((uniqueTargets targets).filter fun u => decide (targetKey u ∉ visited)).map
            fun u => [u.1, u.2] := by
  induction targets generalizing visited err s with
  | nil => simp [distLoop, uniqueTargets]
  | cons x xs ih =>
    simp only [distLoop, uniqueTargets]
    have hkey : x.1 ++ "_" ++ x.2 = targetKey x := rfl
    by_cases hv : targetKey x ∈ visited
    · simp only [hkey, hv, ↓reduceIte, ih, List.filter_cons, not_true_eq_false, decide_False,
        List.filter_filter]
      congr 2
      apply List.filter_congr
      intro u _
      by_cases hu : targetKey u ∈ visited
      · simp [hu]
      · have : targetKey u ≠ targetKey x := fun h => hu (h ▸ hv)
        simp [hu, this]
    · simp only [hkey, hv, ↓reduceIte, ih, List.filter_cons, not_false_eq_true, decide_True,
        List.filter_filter, List.map_cons]
      rw [(buildBinary_trace env cfg rt [x.1, x.2] s).2, binaryCalls_append,
        List.append_assoc]
      congr 1
      simp only [binaryCalls, List.filterMap_cons, List.filterMap_nil, List.singleton_append,
        List.cons.injEq, true_and]
      congr 1
      apply List.filter_congr
      intro u _
      simp only [List.mem_cons, not_or, Bool.and_eq_true, decide_eq_true_eq, bne_iff_ne, ne_eq,
        Bool.decide_and, decide_not]
      by_cases h1 : targetKey u = targetKey x <;> by_cases h2 : targetKey u ∈ visited <;>
        simp [h1, h2]

theorem binaryCalls_assetFrame {W : Type} (s t : St W) (h : AssetFrame s t) :
    binaryCalls t.trace = binaryCalls s.trace := by
  obtain ⟨_, evs, h1, h2⟩ := h
  rw [h1, binaryCalls_append]
  suffices hs : binaryCalls evs = [] by simp [hs]
  clear h1
  induction evs with
  | nil => rfl
  | cons x xs ih =>
    have hx := h2 x (List.mem_cons_self _ _)
    have hxs := ih fun e he => h2 e (List.mem_cons_of_mem _ he)
    cases x <;> simp_all [binaryCalls, Event.isAsset]

/-- C5: in a distribution pass that returns nil, hence one whose asset and
test steps succeeded, `buildBinary` is called on the configured cross targets
followed by the host target, with every later occurrence of an already seen
`os_arch` string left out and the first occurrences in their order; no
`os_arch` string is built twice. -/
theorem dist_builds_unique_targets {W : Type} (env : Env W) (cfg : ProjectConfig)
    (rt : Runtime) (fuel : Nat) (s t : St W)
    (h : Dist env cfg rt fuel s = some (none, t)) :
    binaryCalls t.trace
        = binaryCalls s.trace
          ++ (uniqueTargets (cfg.crossTargets ++ [(rt.GOOS, rt.GOARCH)])).map
              (fun u => [u.1, u.2])
      ∧ ((uniqueTargets (cfg.crossTargets ++ [(rt.GOOS, rt.GOARCH)])).map targetKey).Nodup
      ∧ (uniqueTargets (cfg.crossTargets ++ [(rt.GOOS, rt.GOARCH)])).Sublist
          (cfg.crossTargets ++ [(rt.GOOS, rt.GOARCH)])
      ∧ (∀ k, k ∈ (uniqueTargets (cfg.crossTargets ++ [(rt.GOOS, rt.GOARCH)])).map targetKey
          ↔ k ∈ (cfg.crossTargets ++ [(rt.GOOS, rt.GOARCH)]).map targetKey)
      ∧ uniqueTargets [("A", "x"), ("B", "y"), ("A", "x"), ("A", "x")]
          = [("A", "x"), ("B", "y")] := by
  refine ⟨?_, uniqueTargets_keys_nodup _, uniqueTargets_sublist _, uniqueTargets_keys _,
    by decide⟩
  simp only [Dist, buildImages, buildStyles, buildJavaScripts] at h
  rcases h1 : buildAssets env cfg .images fuel ""
      { s with app := { s.app with isProduction := true } } with _ | ⟨_ | e1, s1⟩
  · rw [h1] at h; exact Option.noConfusion h
  swap
  · rw [h1] at h; simp at h
  rw [h1] at h
  simp only at h
  rcases h2 : buildAssets env cfg .styles fuel "" s1 with _ | ⟨_ | e2, s2⟩
  · rw [h2] at h; exact Option.noConfusion h
  swap
  · rw [h2] at h; simp at h
  rw [h2] at h
  simp only at h
  rcases h3 : buildAssets env cfg .javascripts fuel "" s2 with _ | ⟨_ | e3, s3⟩
  · rw [h3] at h; exact Option.noConfusion h
  swap
  · rw [h3] at h; simp at h
  rw [h3] at h
  simp only at h
  rcases h4 : binaryTest env "" s3 with ⟨_ | e4, s4⟩
  swap
  · rw [h4] at h; simp at h
  rw [h4] at h
  simp only [Option.some.injEq] at h
  have ht : t = (distLoop env cfg rt (cfg.crossTargets ++ [(rt.GOOS, rt.GOARCH)]) [] none s4).2 := by
    rw [h]
  have hs4 : binaryCalls s4.trace = binaryCalls s.trace := by
    have e4 : s4 = (binaryTest env "" s3).2 := by rw [h4]
    rw [e4]
    have f1 := binaryCalls_assetFrame _ _ (buildAssets_assetFrame env cfg _ fuel "" _ _ s1 h1)
    have f2 := binaryCalls_assetFrame _ _ (buildAssets_assetFrame env cfg _ fuel "" _ _ s2 h2)
    have f3 := binaryCalls_assetFrame _ _ (buildAssets_assetFrame env cfg _ fuel "" _ _ s3 h3)
    have f4 : binaryCalls (binaryTest env "" s3).2.trace = binaryCalls s3.trace := by
      simp [binaryTest, callExt, binaryCalls_append, binaryCalls]
    rw [f4, f3, f2, f1]
  rw [ht, distLoop_calls, hs4]
  simp

/-- Witness for C5: cross targets `(A,x)`, `(B,y)`, `(A,x)` on the host
`(A,x)`, every step succeeding: `buildBinary` is called for `(A,x)` and for
`(B,y)`, once each. -/
theorem dist_builds_unique_targets_witness :
    ∃ t, Dist calmEnv repeatedTargetsConfig hostAx 2 (initSt [] ()) = some (none, t)
      ∧ binaryCalls t.trace = [["A", "x"], ["B", "y"]] :=
  ⟨_, rfl,
    (dist_builds_unique_targets calmEnv repeatedTargetsConfig hostAx 2 (initSt [] ()) _ rfl).1.trans
      (by decide)⟩

/-- C3, the code at the failing input: cross targets linux/amd64 and
darwin/amd64 on a windows host, the build for linux failing.  The pass goes on
to build darwin and windows and returns nil. -/
theorem dist_continues_after_failed_target :
    crossConfig.crossTargets = [("linux", "amd64"), ("darwin", "amd64")]
      ∧ (buildBinary (pickyEnv [] [] ["linux"]) crossConfig windowsHost ["linux", "amd64"]
            ⟨{ NewAppShell [] with isProduction := true }, (), []⟩).1
          = some "go build failed"
      ∧ (Dist (pickyEnv [] [] ["linux"]) crossConfig windowsHost 2 (initSt [] ())).map
            (fun r => (r.1, binaryCalls r.2.trace))
          = some (none, [["linux", "amd64"], ["darwin", "amd64"], ["windows", "amd64"]]) := by
  decide

end GoBuildWeb
